import Mathlib

/-! Shallow embedding of the manifest indexing and selector-resolution engine
of pytest_helm (src/pytest_helm/_loader.py): YAML-document validation into
records, the duplicate policy, and selector lookup over a manifest index. -/

/-- Model of a parsed YAML value as handed to the loader by the YAML
deserializer (yaml.load_all): Python None, booleans, integers, strings,
sequences and mappings.  Mapping keys are modelled as strings, which is all
the loader ever looks up. -/
inductive Yaml where
  | null : Yaml
  | bool (b : Bool) : Yaml
  | int (n : Int) : Yaml
  | str (s : String) : Yaml
  | seq (items : List Yaml) : Yaml
  | map (entries : List (String × Yaml)) : Yaml

/-- Model of Python str.casefold on the strings this loader manipulates:
character-wise ASCII lower-casing. -/
def casefold (s : String) : String :=
  String.mk (s.data.map Char.toLower)

/-- Model of Python repr for the strings interpolated into the loader's
error messages (none of which need escaping). -/
def pyRepr (s : String) : String :=
  "\x27" ++ s ++ "\x27"

/-- Model of Python str.split("/") at the character-list level. -/
def splitSlash : List Char → List (List Char)
  | [] => [[]]
  | c :: rest =>
    if c = '/' then [] :: splitSlash rest
    else
      match splitSlash rest with
      | seg :: segs => (c :: seg) :: segs
      | [] => [[c]]

/-- Model of Python str.strip("/"): remove the slashes at both ends. -/
def stripSlashData (l : List Char) : List Char :=
  ((l.dropWhile (fun c => c == '/')).reverse.dropWhile (fun c => c == '/')).reverse

/-- The effective segments at the character-list level: strip slashes at
the ends, split on '/', drop empty parts. -/
def effSegsL (l : List Char) : List (List Char) :=
  (splitSlash (stripSlashData l)).filter (fun seg => !seg.isEmpty)

/-- The effective segments of a selector (the list comprehension in
_parse_selector): strip slashes at the ends, split on '/', drop empty
parts. -/
def effSegs (s : String) : List String :=
  (effSegsL s.data).map String.mk

/-- Model of "/".join: the segments with a single slash between
consecutive ones. -/
def joinSlash : List String → String
  | [] => ""
  | [x] => x
  | x :: y :: rest => x ++ "/" ++ joinSlash (y :: rest)

/-- Model of ", ".join. -/
def joinCommaSpace (xs : List String) : String :=
  String.mk (List.intercalate [',', ' '] (xs.map String.data))

/-- Model of the frozen dataclass _ManifestRecord.  The manifest field holds
the full document (the Box wrapper is a field-access adapter only). -/
structure ManifestRecord where
  api_version : String
  kind : String
  name : String
  manifest : Yaml

/-- Model of _ManifestRecord.duplicate_key: the case-folded
(kind, name, apiVersion) triple. -/
def ManifestRecord.duplicate_key (r : ManifestRecord) : String × String × String :=
  (casefold r.kind, casefold r.name, casefold r.api_version)

/-- Failure values ManifestIndex.get can produce, one constructor per raise
site in the source; renderGetErr gives the exact message text and
pyExcClassGet the Python exception class raised there. -/
inductive GetErr where
  | invalidSelector (selector : String)
  | kindNotFound (kind : String) (available : List String)
  | nameNotFound (kind name : String) (available : List String)
  | apiVersionNotFound (kind name api_version : String) (available : List String)
  | ambiguousManifest (kind name : String) (apiVersions : List String)
  | indexOutOfRange
deriving DecidableEq

/-- Model of the f-string fallback `available or '(none)'`. -/
def renderAvailable (xs : List String) : String :=
  let joined := joinCommaSpace xs
  if joined = "" then "(none)" else joined

/-- The exact message text of each failure raised by ManifestIndex.get. -/
def renderGetErr : GetErr → String
  | .invalidSelector sel =>
    "Invalid selector " ++ pyRepr sel ++
      ". Expected \x27kind/name\x27 or \x27apiVersion/kind/name\x27."
  | .kindNotFound kind available =>
    "Kind " ++ pyRepr kind ++ " not found. Available kinds: " ++ renderAvailable available
  | .nameNotFound kind name available =>
    "Manifest " ++ pyRepr kind ++ "/" ++ pyRepr name ++
      " not found. Available names for " ++ pyRepr kind ++ ": " ++ renderAvailable available
  | .apiVersionNotFound kind name api_version available =>
    "Manifest " ++ pyRepr kind ++ "/" ++ pyRepr name ++ " with apiVersion " ++
      pyRepr api_version ++ " not found. Available apiVersions for " ++ pyRepr kind ++
      "/" ++ pyRepr name ++ ": " ++ renderAvailable available
  | .ambiguousManifest kind name apiVersions =>
    "Manifest " ++ pyRepr kind ++ "/" ++ pyRepr name ++
      " is ambiguous across apiVersions: " ++ joinCommaSpace apiVersions ++
      ". Use \x27apiVersion/kind/name\x27."
  | .indexOutOfRange => "list index out of range"

/-- Failure values of the parsing pipeline (ManifestParseError and
DuplicateManifestError in the source). -/
inductive LoaderError where
  | manifestParse (message : String)
  | duplicateManifest (api_version kind name : String)
deriving DecidableEq

/-- The exact message text of each pipeline failure. -/
def renderLoaderError : LoaderError → String
  | .manifestParse msg => msg
  | .duplicateManifest api_version kind name =>
    "Duplicate manifest detected for apiVersion=" ++ pyRepr api_version ++
      ", kind=" ++ pyRepr kind ++ ", name=" ++ pyRepr name ++
      ". Set on_duplicate=\x27ignore\x27 to keep the first document."

/-- The Python exception classes involved: four host-language builtins and
the classes _loader.py defines itself. -/
inductive PyExc where
  | valueError
  | keyError
  | indexError
  | runtimeError
  | helmTemplateError
  | manifestParseError
  | duplicateManifestError
  | ambiguousManifestError
deriving DecidableEq

/-- Whether the class is a Python builtin, i.e. a generic error of the host
language rather than a class the loader defines. -/
def PyExc.isBuiltinExc : PyExc → Bool
  | .valueError | .keyError | .indexError | .runtimeError => true
  | _ => false

/-- The Python exception class raised at each failure site of get:
_parse_selector raises the builtin ValueError, the three not-found sites
raise the builtin KeyError, and only the ambiguity site raises the
loader's own AmbiguousManifestError class. -/
def pyExcClassGet : GetErr → PyExc
  | .invalidSelector _ => .valueError
  | .kindNotFound _ _ => .keyError
  | .nameNotFound _ _ _ => .keyError
  | .apiVersionNotFound _ _ _ _ => .keyError
  | .ambiguousManifest _ _ _ => .ambiguousManifestError
  | .indexOutOfRange => .indexError

/-- The Python exception class raised for each pipeline failure. -/
def pyExcClassLoader : LoaderError → PyExc
  | .manifestParse _ => .manifestParseError
  | .duplicateManifest _ _ _ => .duplicateManifestError

/-- Keep the first element of each key class, in input order: the shape
shared by the seen-set of _apply_duplicate_policy and the setdefault dict
of _available_kinds / _available_names_for_kind. -/
def firstByKeyAux {α κ : Type} [DecidableEq κ] (key : α → κ) (seen : List κ) :
    List α → List α
  | [] => []
  | x :: rest =>
    if key x ∈ seen then firstByKeyAux key seen rest
    else x :: firstByKeyAux key (key x :: seen) rest

/-- First representative of each key class, in input order. -/
def firstByKey {α κ : Type} [DecidableEq κ] (key : α → κ) (xs : List α) : List α :=
  firstByKeyAux key [] xs

/-- Strict lexicographic comparison of character lists by code point: the
model of Python string comparison (which orders by code points). -/
def ltChars : List Char → List Char → Bool
  | [], [] => false
  | [], _ :: _ => true
  | _ :: _, [] => false
  | c :: cs, d :: ds =>
    if c.toNat < d.toNat then true
    else if d.toNat < c.toNat then false
    else ltChars cs ds

/-- Strict case-insensitive comparison of strings: compare the case-folded
projections. -/
def ltCI (a b : String) : Bool :=
  ltChars (casefold a).data (casefold b).data

/-- Insert a string into a list already sorted on the case-folded
projection, before the first entry whose case-folded key is not smaller
(so an earlier element is kept before case-fold-equal later ones). -/
def insertCI (x : String) : List String → List String
  | [] => [x]
  | y :: ys => if ltCI y x then y :: insertCI x ys else x :: y :: ys

/-- Model of sorted(..., key=str.casefold): a stable ascending sort on the
case-folded projection (Python's sort is stable; any stable sort computes
the same list, and insertion from the right is one). -/
def sortCaseInsensitive : List String → List String
  | [] => []
  | x :: xs => insertCI x (sortCaseInsensitive xs)

/-- Model of sorted(set-of-strings, key=str.casefold): deduplicate the raw
strings (a Python set compares exact values), then sort case-insensitively;
the set's iteration order is modelled as first-occurrence order, which the
sort makes irrelevant except among casefold-equal strings. -/
def pySortedSet (xs : List String) : List String :=
  sortCaseInsensitive (firstByKey id xs)

/-- Model of ManifestIndex._available_kinds: one case-preserved
representative per case-folded kind, sorted case-insensitively. -/
def available_kinds (records : List ManifestRecord) : List String :=
  sortCaseInsensitive (firstByKey casefold (records.map ManifestRecord.kind))

/-- Model of ManifestIndex._available_names_for_kind. -/
def available_names_for_kind (records : List ManifestRecord) : List String :=
  sortCaseInsensitive (firstByKey casefold (records.map ManifestRecord.name))

/-- Model of ManifestIndex._parse_selector. -/
def parse_selector (selector : String) :
    Except GetErr (Option String × String × String) :=
  let parts := effSegs selector
  if parts.length < 2 then
    .error (.invalidSelector selector)
  else
    let name := (parts.getLast?).getD ""
    let kind := (parts.dropLast.getLast?).getD ""
    let joined := joinSlash (parts.dropLast.dropLast)
    .ok (if joined = "" then none else some joined, kind, name)

/-- Model of ManifestIndex: the record collection, fixed at construction. -/
structure ManifestIndex where
  records : List ManifestRecord

/-- The kind filter of _records_for_kind: case-insensitive equality against
every record's kind. -/
def kindFilter (records : List ManifestRecord) (kind : String) : List ManifestRecord :=
  records.filter (fun r => casefold r.kind == casefold kind)

/-- The name filter of _records_for_name: case-insensitive equality against
every record's name. -/
def nameFilter (records : List ManifestRecord) (name : String) : List ManifestRecord :=
  records.filter (fun r => casefold r.name == casefold name)

/-- Model of ManifestIndex._records_for_kind. -/
def records_for_kind (records : List ManifestRecord) (kind : String) :
    Except GetErr (List ManifestRecord) :=
  let found := kindFilter records kind
  if found.isEmpty then .error (.kindNotFound kind (available_kinds records))
  else .ok found

/-- Model of ManifestIndex._records_for_name. -/
def records_for_name (records : List ManifestRecord) (kind name : String) :
    Except GetErr (List ManifestRecord) :=
  let found := nameFilter records name
  if found.isEmpty then .error (.nameNotFound kind name (available_names_for_kind records))
  else .ok found

/-- Model of ManifestIndex._single_or_ambiguous.  The empty-records case is
unreachable from get (the name filter returns a non-empty list) and models
the IndexError records[0] would raise. -/
def single_or_ambiguous (kind name : String) (records : List ManifestRecord) :
    Except GetErr Yaml :=
  let apiVersions := pySortedSet (records.map ManifestRecord.api_version)
  if 1 < apiVersions.length then
    .error (.ambiguousManifest kind name apiVersions)
  else
    match records with
    | r :: _ => .ok r.manifest
    | [] => .error .indexOutOfRange

/-- Model of ManifestIndex._match_api_version: first record whose
case-folded apiVersion equals the requested one. -/
def match_api_version (kind name api_version : String)
    (records : List ManifestRecord) : Except GetErr Yaml :=
  match records.find? (fun r => casefold r.api_version == casefold api_version) with
  | some r => .ok r.manifest
  | none =>
    .error (.apiVersionNotFound kind name api_version
      (pySortedSet (records.map ManifestRecord.api_version)))

/-- Model of ManifestIndex.get: parse the selector, filter by kind, then by
name, then disambiguate or match the apiVersion. -/
def ManifestIndex.get (idx : ManifestIndex) (selector : String) : Except GetErr Yaml :=
  match parse_selector selector with
  | .error e => .error e
  | .ok (api_version, kind, name) =>
    match records_for_kind idx.records kind with
    | .error e => .error e
    | .ok kind_records =>
      match records_for_name kind_records kind name with
      | .error e => .error e
      | .ok name_records =>
        match api_version with
        | none => single_or_ambiguous kind name name_records
        | some av => match_api_version kind name av name_records

/-- The resolution outcome of a get call with messages erased: the returned
document on success, otherwise the stage that failed. -/
inductive GetOutcome where
  | ok (doc : Yaml)
  | invalidSelector
  | kindNotFound
  | nameNotFound
  | apiVersionNotFound
  | ambiguous
  | indexOutOfRange

/-- Map a get result to its outcome. -/
def outcomeOf : Except GetErr Yaml → GetOutcome
  | .ok doc => .ok doc
  | .error (.invalidSelector _) => .invalidSelector
  | .error (.kindNotFound _ _) => .kindNotFound
  | .error (.nameNotFound _ _ _) => .nameNotFound
  | .error (.apiVersionNotFound _ _ _ _) => .apiVersionNotFound
  | .error (.ambiguousManifest _ _ _) => .ambiguous
  | .error .indexOutOfRange => .indexOutOfRange

/-- Model of the on_duplicate policy argument. -/
inductive DuplicatePolicy where
  | error
  | ignore
deriving DecidableEq

/-- Model of _apply_duplicate_policy, with the seen set made an explicit
accumulator (the source starts it empty). -/
def apply_duplicate_policy (onDuplicate : DuplicatePolicy)
    (seen : List (String × String × String)) :
    List ManifestRecord → Except LoaderError (List ManifestRecord)
  | [] => .ok []
  | r :: rest =>
    if r.duplicate_key ∈ seen then
      match onDuplicate with
      | .error => .error (.duplicateManifest r.api_version r.kind r.name)
      | .ignore => apply_duplicate_policy onDuplicate seen rest
    else
      match apply_duplicate_policy onDuplicate (r.duplicate_key :: seen) rest with
      | .ok deduped => .ok (r :: deduped)
      | .error e => .error e

/-- Model of dict.get on a mapping document. -/
def lookupKey (entries : List (String × Yaml)) (key : String) : Option Yaml :=
  (entries.find? (fun e => e.1 == key)).map Prod.snd

/-- Model of the validation `isinstance(x, str) and x`: some s exactly when
the value is a non-empty string. -/
def getStr? : Option Yaml → Option String
  | some (.str s) => if s = "" then none else some s
  | _ => none

/-- Model of `metadata.get("name") if isinstance(metadata, Mapping) else None`. -/
def metaName (entries : List (String × Yaml)) : Option Yaml :=
  match lookupKey entries "metadata" with
  | some (.map mentries) => lookupKey mentries "name"
  | _ => none

/-- The not-a-mapping ParseError message at 1-based ordinal n. -/
def notMappingMsg (n : Nat) : String :=
  "YAML document #" ++ toString n ++ " is not a mapping object."

/-- The missing-field ParseError message at 1-based ordinal n. -/
def missingFieldMsg (n : Nat) (field : String) : String :=
  "YAML document #" ++ toString n ++ " is missing non-empty " ++ pyRepr field ++ "."

/-- Model of the validation loop of parse_manifest_documents: walk the
deserialized documents with their 1-based ordinals, skip nulls, and build a
record per valid mapping (validating apiVersion, then kind, then
metadata.name, as the source does). -/
def parseRecords : List Yaml → Nat → Except LoaderError (List ManifestRecord)
  | [], _ => .ok []
  | d :: rest, n =>
    match d with
    | .null => parseRecords rest (n + 1)
    | .map entries =>
      match getStr? (lookupKey entries "apiVersion") with
      | none => .error (.manifestParse (missingFieldMsg n "apiVersion"))
      | some av =>
        match getStr? (lookupKey entries "kind") with
        | none => .error (.manifestParse (missingFieldMsg n "kind"))
        | some kind =>
          match getStr? (metaName entries) with
          | none => .error (.manifestParse (missingFieldMsg n "metadata.name"))
          | some name =>
            match parseRecords rest (n + 1) with
            | .ok records => .ok (ManifestRecord.mk av kind name (.map entries) :: records)
            | .error e => .error e
    | _ => .error (.manifestParse (notMappingMsg n))

/-- Model of parse_manifest_documents: validate every document, then apply
the duplicate policy, then build the index. -/
def parse_manifest_documents (docs : List Yaml) (onDuplicate : DuplicatePolicy) :
    Except LoaderError ManifestIndex :=
  match parseRecords docs 1 with
  | .error e => .error e
  | .ok records =>
    match apply_duplicate_policy onDuplicate [] records with
    | .error e => .error e
    | .ok deduped => .ok (ManifestIndex.mk deduped)

/-- Declarative first-wins filter: a record is kept exactly when its
duplicate key does not occur among the records strictly before it (pre
accumulates the already-walked records). -/
def firstWinsAux (pre : List ManifestRecord) : List ManifestRecord → List ManifestRecord
  | [] => []
  | r :: rest =>
    if r.duplicate_key ∈ pre.map ManifestRecord.duplicate_key then
      firstWinsAux (pre ++ [r]) rest
    else r :: firstWinsAux (pre ++ [r]) rest

/-- Whether a document passes the parser's validation (nulls are skipped,
so they count as passing). -/
def docOk : Yaml → Bool
  | .null => true
  | .map entries =>
    (getStr? (lookupKey entries "apiVersion")).isSome &&
      (getStr? (lookupKey entries "kind")).isSome &&
      (getStr? (metaName entries)).isSome
  | _ => false

/-- The ParseError message the pipeline produces for an invalid document at
1-based ordinal n, mirroring the source's validation order (mapping check,
then apiVersion, kind, metadata.name). -/
def docIssueMsg (d : Yaml) (n : Nat) : String :=
  match d with
  | .map entries =>
    if getStr? (lookupKey entries "apiVersion") = none then missingFieldMsg n "apiVersion"
    else if getStr? (lookupKey entries "kind") = none then missingFieldMsg n "kind"
    else missingFieldMsg n "metadata.name"
  | _ => notMappingMsg n

/-- Sorted case-insensitively: no later entry is strictly below an earlier
one on the case-folded projection. -/
def sortedCI (xs : List String) : Prop :=
  xs.Pairwise (fun a b => ltCI b a = false)

/-! Lemmas about splitting, stripping and joining selector segments. -/

/-- Unfolding lemma: a leading slash opens a fresh empty segment. -/
theorem splitSlash_cons_slash (l : List Char) :
    splitSlash ('/' :: l) = [] :: splitSlash l := rfl

/-- Unfolding lemma: a non-slash character extends the first segment. -/
theorem splitSlash_cons_of_ne {c : Char} {l : List Char} (hc : c ≠ '/')
    {s : List Char} {ss : List (List Char)} (h : splitSlash l = s :: ss) :
    splitSlash (c :: l) = (c :: s) :: ss := by
  simp only [splitSlash, if_neg hc, h]

/-- splitSlash never returns the empty list of segments. -/
theorem splitSlash_ne_nil (l : List Char) : splitSlash l ≠ [] := by
  induction l with
  | nil => simp [splitSlash]
  | cons c rest ih =>
    by_cases hc : c = '/'
    · subst hc
      simp [splitSlash_cons_slash]
    · cases h : splitSlash rest with
      | nil => exact absurd h ih
      | cons s ss => simp [splitSlash_cons_of_ne hc h]

/-- Splitting around an explicit slash splits the two sides separately. -/
theorem splitSlash_append (a b : List Char) :
    splitSlash (a ++ '/' :: b) = splitSlash a ++ splitSlash b := by
  induction a with
  | nil => simp [splitSlash_cons_slash, splitSlash]
  | cons c a ih =>
    by_cases hc : c = '/'
    · subst hc
      rw [List.cons_append, splitSlash_cons_slash, ih, splitSlash_cons_slash,
        List.cons_append]
    · cases h : splitSlash a with
      | nil => exact absurd h (splitSlash_ne_nil a)
      | cons s ss =>
        have h2 : splitSlash (a ++ '/' :: b) = s :: (ss ++ splitSlash b) := by
          rw [ih, h]
          rfl
        rw [List.cons_append, splitSlash_cons_of_ne hc h2, splitSlash_cons_of_ne hc h]
        rfl

/-- Every segment produced by splitSlash is slash-free. -/
theorem splitSlash_no_slash {l : List Char} {seg : List Char}
    (h : seg ∈ splitSlash l) : '/' ∉ seg := by
  induction l generalizing seg with
  | nil =>
    simp only [splitSlash] at h
    rcases List.mem_cons.mp h with h | h
    · subst h; simp
    · simp at h
  | cons c rest ih =>
    by_cases hc : c = '/'
    · subst hc
      rw [splitSlash_cons_slash] at h
      rcases List.mem_cons.mp h with h | h
      · subst h; simp
      · exact ih h
    · cases hs : splitSlash rest with
      | nil => exact absurd hs (splitSlash_ne_nil rest)
      | cons s ss =>
        rw [splitSlash_cons_of_ne hc hs] at h
        rcases List.mem_cons.mp h with h | h
        · subst h
          intro hmem
          rcases List.mem_cons.mp hmem with h | h
          · exact hc h.symm
          · have hsm : s ∈ splitSlash rest := by
              rw [hs]
              exact List.mem_cons_self s ss
            exact ih hsm h
        · exact ih (by rw [hs]; exact List.mem_cons.mpr (Or.inr h))

/-- A slash-free list is a single segment. -/
theorem splitSlash_of_no_slash {l : List Char} (h : '/' ∉ l) :
    splitSlash l = [l] := by
  induction l with
  | nil => rfl
  | cons c rest ih =>
    have hc : c ≠ '/' := fun hx => h (hx ▸ List.mem_cons_self c rest)
    have hrest : '/' ∉ rest := fun hx => h (List.mem_cons.mpr (Or.inr hx))
    exact splitSlash_cons_of_ne hc (ih hrest)

/-- Dropping leading slashes does not change the non-empty segments. -/
theorem filter_splitSlash_dropWhile (l : List Char) :
    (splitSlash (l.dropWhile (fun c => c == '/'))).filter (fun seg => !seg.isEmpty) =
      (splitSlash l).filter (fun seg => !seg.isEmpty) := by
  induction l with
  | nil => rfl
  | cons c rest ih =>
    by_cases hc : c = '/'
    · subst hc
      rw [List.dropWhile_cons_of_pos (by simp), ih, splitSlash_cons_slash]
      simp
    · rw [List.dropWhile_cons_of_neg (by simp [hc])]

/-- A trailing slash does not change the non-empty segments. -/
theorem filter_splitSlash_concat_slash (l : List Char) :
    (splitSlash (l ++ ['/'])).filter (fun seg => !seg.isEmpty) =
      (splitSlash l).filter (fun seg => !seg.isEmpty) := by
  have h : l ++ ['/'] = l ++ '/' :: [] := rfl
  rw [h, splitSlash_append, List.filter_append]
  simp [splitSlash]

/-- Dropping trailing slashes (expressed through reverse) does not change
the non-empty segments. -/
theorem filter_splitSlash_revDropWhile (rl : List Char) :
    (splitSlash ((rl.dropWhile (fun c => c == '/')).reverse)).filter
        (fun seg => !seg.isEmpty) =
      (splitSlash rl.reverse).filter (fun seg => !seg.isEmpty) := by
  induction rl with
  | nil => rfl
  | cons c rest ih =>
    by_cases hc : c = '/'
    · subst hc
      rw [List.dropWhile_cons_of_pos (by simp), ih, List.reverse_cons,
        filter_splitSlash_concat_slash]
    · rw [List.dropWhile_cons_of_neg (by simp [hc])]

/-- Stripping slashes at the ends is redundant once empty segments are
dropped. -/
theorem effSegsL_eq (l : List Char) :
    effSegsL l = (splitSlash l).filter (fun seg => !seg.isEmpty) := by
  unfold effSegsL stripSlashData
  rw [filter_splitSlash_revDropWhile, List.reverse_reverse,
    filter_splitSlash_dropWhile]

/-- Effective segments around an explicit slash concatenate. -/
theorem effSegsL_append (a b : List Char) :
    effSegsL (a ++ '/' :: b) = effSegsL a ++ effSegsL b := by
  rw [effSegsL_eq, effSegsL_eq, effSegsL_eq, splitSlash_append, List.filter_append]

/-- A non-empty slash-free list is its own single effective segment. -/
theorem effSegsL_atom {l : List Char} (h0 : l ≠ []) (h1 : '/' ∉ l) :
    effSegsL l = [l] := by
  rw [effSegsL_eq, splitSlash_of_no_slash h1]
  simp [h0]

/-- Effective segments are non-empty. -/
theorem mem_effSegsL_ne_nil {l seg : List Char} (h : seg ∈ effSegsL l) :
    seg ≠ [] := by
  rw [effSegsL_eq] at h
  have := List.of_mem_filter h
  simpa using this

/-- Effective segments are slash-free. -/
theorem mem_effSegsL_no_slash {l seg : List Char} (h : seg ∈ effSegsL l) :
    '/' ∉ seg := by
  rw [effSegsL_eq] at h
  exact splitSlash_no_slash (List.mem_of_mem_filter h)

/-- Rebuilding a string from its characters gives the string back. -/
theorem mk_data (s : String) : String.mk s.data = s := rfl

/-- A string is empty exactly when it has no characters. -/
theorem eq_empty_iff_data {s : String} : s = "" ↔ s.data = [] := by
  constructor
  · intro h
    rw [h]
  · intro h
    apply String.ext
    rw [h]

/-- String-level form of effSegsL_append. -/
theorem effSegs_append_slash (a b : String) :
    effSegs (a ++ "/" ++ b) = effSegs a ++ effSegs b := by
  unfold effSegs
  have hd : (a ++ "/" ++ b).data = a.data ++ '/' :: b.data := by
    rw [String.data_append, String.data_append]
    simp
  rw [hd, effSegsL_append, List.map_append]

/-- A non-empty slash-free string is its own single effective segment. -/
theorem effSegs_atom {s : String} (h0 : s ≠ "") (h1 : '/' ∉ s.data) :
    effSegs s = [s] := by
  unfold effSegs
  have hd : s.data ≠ [] := fun hx => h0 (eq_empty_iff_data.mpr hx)
  rw [effSegsL_atom hd h1]
  simp [mk_data]

/-- Effective segments of a selector are non-empty strings. -/
theorem mem_effSegs_ne_empty {s x : String} (h : x ∈ effSegs s) : x ≠ "" := by
  unfold effSegs at h
  rcases List.mem_map.mp h with ⟨seg, hseg, hx⟩
  intro hx0
  apply mem_effSegsL_ne_nil hseg
  have : (String.mk seg).data = ("" : String).data := by rw [hx, hx0]
  simpa using this

/-- Effective segments of a selector are slash-free. -/
theorem mem_effSegs_no_slash {s x : String} (h : x ∈ effSegs s) :
    '/' ∉ x.data := by
  unfold effSegs at h
  rcases List.mem_map.mp h with ⟨seg, hseg, hx⟩
  rw [← hx]
  exact mem_effSegsL_no_slash hseg

/-- casefold distributes over string append. -/
theorem casefold_append (a b : String) :
    casefold (a ++ b) = casefold a ++ casefold b := by
  apply String.ext
  simp [casefold, String.data_append]

/-- casefold leaves the slash separator alone, so it distributes over
joinSlash. -/
theorem casefold_joinSlash (xs : List String) :
    casefold (joinSlash xs) = joinSlash (xs.map casefold) := by
  match xs with
  | [] => rfl
  | [x] => rfl
  | x :: y :: rest =>
    rw [joinSlash, List.map_cons, List.map_cons, joinSlash, casefold_append,
      casefold_append]
    rw [show (casefold "/") = "/" from rfl]
    have := casefold_joinSlash (y :: rest)
    rw [List.map_cons] at this
    rw [this]

/-- Joining non-empty segments yields the empty string only for the empty
list. -/
theorem joinSlash_eq_empty_iff {xs : List String} (h : ∀ x ∈ xs, x ≠ "") :
    joinSlash xs = "" ↔ xs = [] := by
  match xs with
  | [] => simp [joinSlash]
  | [x] =>
    simp only [joinSlash]
    have hx := h x (List.mem_singleton_self x)
    simp [hx]
  | x :: y :: rest =>
    simp only [joinSlash]
    constructor
    · intro hx
      exfalso
      have hd := congrArg String.data hx
      rw [String.data_append, String.data_append] at hd
      simp at hd
    · intro hx
      cases hx

/-! Lemmas characterising selector parsing and the stages of get. -/

/-- Fewer than two effective segments fail selector parsing. -/
theorem parse_selector_invalid {s : String} (h : (effSegs s).length < 2) :
    parse_selector s = .error (.invalidSelector s) := by
  unfold parse_selector
  rw [if_pos h]

/-- With at least two effective segments, parsing returns the last segment
as name, the one before as kind, and the joined rest as optional
apiVersion. -/
theorem parse_selector_ok {s : String} {ps : List String} {k n : String}
    (h : effSegs s = ps ++ [k, n]) :
    parse_selector s =
      .ok (if ps = [] then none else some (joinSlash ps), k, n) := by
  have hsplit : ps ++ [k, n] = (ps ++ [k]) ++ [n] := by simp
  have hlen : ¬ (effSegs s).length < 2 := by
    rw [h]
    simp
  have h1 : (effSegs s).getLast? = some n := by
    rw [h, hsplit, List.getLast?_concat]
  have h2 : (effSegs s).dropLast = ps ++ [k] := by
    rw [h, hsplit, List.dropLast_concat]
  have h3 : (ps ++ [k]).getLast? = some k := List.getLast?_concat _
  have h4 : (ps ++ [k]).dropLast = ps := List.dropLast_concat
  unfold parse_selector
  rw [if_neg hlen, h1, h2, h3, h4]
  simp only [Option.getD_some]
  have hne : ∀ x ∈ ps, x ≠ "" := by
    intro x hx
    exact mem_effSegs_ne_empty (s := s) (by rw [h]; exact List.mem_append.mpr (Or.inl hx))
  by_cases hps : ps = []
  · subst hps
    simp [joinSlash]
  · rw [if_neg hps, if_neg (fun hx => hps ((joinSlash_eq_empty_iff hne).mp hx))]

/-- Any list of length at least two decomposes as front plus last two. -/
theorem exists_two_decomp {l : List String} (h : 2 ≤ l.length) :
    ∃ ps k n, l = ps ++ [k, n] := by
  cases hr : l.reverse with
  | nil =>
    rw [← l.length_reverse, hr] at h
    simp at h
  | cons n rest =>
    cases rest with
    | nil =>
      rw [← l.length_reverse, hr] at h
      simp at h
    | cons k psrev =>
      refine ⟨psrev.reverse, k, n, ?_⟩
      have := congrArg List.reverse hr
      rw [List.reverse_reverse] at this
      rw [this]
      simp

/-- A two-segment selector built from non-empty slash-free parts parses as
an unversioned kind/name pair. -/
theorem parse_selector_two {k n : String} (hk0 : k ≠ "") (hk1 : '/' ∉ k.data)
    (hn0 : n ≠ "") (hn1 : '/' ∉ n.data) :
    parse_selector (k ++ "/" ++ n) = .ok (none, k, n) := by
  have h : effSegs (k ++ "/" ++ n) = [] ++ [k, n] := by
    rw [effSegs_append_slash, effSegs_atom hk0 hk1, effSegs_atom hn0 hn1]
    rfl
  rw [parse_selector_ok h]
  rfl

/-- A fully-qualified selector built from a slash-normalised apiVersion and
non-empty slash-free kind and name parses back to the same three parts. -/
theorem parse_selector_three {a k n : String}
    (ha0 : effSegs a ≠ []) (ha1 : joinSlash (effSegs a) = a)
    (hk0 : k ≠ "") (hk1 : '/' ∉ k.data) (hn0 : n ≠ "") (hn1 : '/' ∉ n.data) :
    parse_selector (a ++ "/" ++ k ++ "/" ++ n) = .ok (some a, k, n) := by
  have h : effSegs (a ++ "/" ++ k ++ "/" ++ n) = effSegs a ++ [k, n] := by
    rw [effSegs_append_slash, effSegs_append_slash, effSegs_atom hk0 hk1,
      effSegs_atom hn0 hn1]
    simp
  rw [parse_selector_ok h, if_neg ha0, ha1]

/-- records_for_kind succeeds exactly on a non-empty kind filter. -/
theorem records_for_kind_pos {records : List ManifestRecord} {kind : String}
    (h : kindFilter records kind ≠ []) :
    records_for_kind records kind = .ok (kindFilter records kind) := by
  have he : (kindFilter records kind).isEmpty = false := by
    cases hk : kindFilter records kind with
    | nil => exact absurd hk h
    | cons a l => rfl
  simp [records_for_kind, he]

/-- records_for_kind fails on an empty kind filter, listing the available
kinds. -/
theorem records_for_kind_neg {records : List ManifestRecord} {kind : String}
    (h : kindFilter records kind = []) :
    records_for_kind records kind = .error (.kindNotFound kind (available_kinds records)) := by
  simp [records_for_kind, h]

/-- records_for_name succeeds exactly on a non-empty name filter. -/
theorem records_for_name_pos {records : List ManifestRecord} {kind name : String}
    (h : nameFilter records name ≠ []) :
    records_for_name records kind name = .ok (nameFilter records name) := by
  have he : (nameFilter records name).isEmpty = false := by
    cases hk : nameFilter records name with
    | nil => exact absurd hk h
    | cons a l => rfl
  simp [records_for_name, he]

/-- records_for_name fails on an empty name filter, listing the available
names for the kind. -/
theorem records_for_name_neg {records : List ManifestRecord} {kind name : String}
    (h : nameFilter records name = []) :
    records_for_name records kind name =
      .error (.nameNotFound kind name (available_names_for_kind records)) := by
  simp [records_for_name, h]

/-- get fails at the kind stage when no record kind matches. -/
theorem get_kind_missing {rs : List ManifestRecord} {sel : String}
    {av? : Option String} {k n : String}
    (hp : parse_selector sel = .ok (av?, k, n)) (h1 : kindFilter rs k = []) :
    ManifestIndex.get ⟨rs⟩ sel = .error (.kindNotFound k (available_kinds rs)) := by
  simp [ManifestIndex.get, hp, records_for_kind_neg h1]

/-- get fails at the name stage when kinds match but no name does. -/
theorem get_name_missing {rs : List ManifestRecord} {sel : String}
    {av? : Option String} {k n : String}
    (hp : parse_selector sel = .ok (av?, k, n)) (h1 : kindFilter rs k ≠ [])
    (h2 : nameFilter (kindFilter rs k) n = []) :
    ManifestIndex.get ⟨rs⟩ sel =
      .error (.nameNotFound k n (available_names_for_kind (kindFilter rs k))) := by
  simp [ManifestIndex.get, hp, records_for_kind_pos h1, records_for_name_neg h2]

/-- An unversioned selector that passes both filters resolves through
single_or_ambiguous on the name-filtered records. -/
theorem get_unversioned {rs : List ManifestRecord} {sel : String} {k n : String}
    (hp : parse_selector sel = .ok (none, k, n)) (h1 : kindFilter rs k ≠ [])
    (h2 : nameFilter (kindFilter rs k) n ≠ []) :
    ManifestIndex.get ⟨rs⟩ sel =
      single_or_ambiguous k n (nameFilter (kindFilter rs k) n) := by
  simp [ManifestIndex.get, hp, records_for_kind_pos h1, records_for_name_pos h2]

/-- A versioned selector that passes both filters resolves through
match_api_version on the name-filtered records. -/
theorem get_versioned {rs : List ManifestRecord} {sel : String} {a k n : String}
    (hp : parse_selector sel = .ok (some a, k, n)) (h1 : kindFilter rs k ≠ [])
    (h2 : nameFilter (kindFilter rs k) n ≠ []) :
    ManifestIndex.get ⟨rs⟩ sel =
      match_api_version k n a (nameFilter (kindFilter rs k) n) := by
  simp [ManifestIndex.get, hp, records_for_kind_pos h1, records_for_name_pos h2]

/-- With at most one distinct raw apiVersion, single_or_ambiguous returns
the first record's document. -/
theorem single_or_ambiguous_single {k n : String} {records : List ManifestRecord}
    {r : ManifestRecord} {rest : List ManifestRecord} (hrec : records = r :: rest)
    (hlen : (pySortedSet (records.map ManifestRecord.api_version)).length ≤ 1) :
    single_or_ambiguous k n records = .ok r.manifest := by
  unfold single_or_ambiguous
  rw [if_neg (by omega)]
  rw [hrec]

/-- With more than one distinct raw apiVersion, single_or_ambiguous fails
with the ambiguity error listing the candidates. -/
theorem single_or_ambiguous_multi {k n : String} {records : List ManifestRecord}
    (h : 1 < (pySortedSet (records.map ManifestRecord.api_version)).length) :
    single_or_ambiguous k n records =
      .error (.ambiguousManifest k n (pySortedSet (records.map ManifestRecord.api_version))) := by
  unfold single_or_ambiguous
  rw [if_pos h]

/-- When some record matches the requested apiVersion case-insensitively,
match_api_version returns the first such record's document. -/
theorem match_api_version_found {k n a : String} {records : List ManifestRecord}
    {r : ManifestRecord}
    (h : records.find? (fun r2 => casefold r2.api_version == casefold a) = some r) :
    match_api_version k n a records = .ok r.manifest := by
  unfold match_api_version
  rw [h]

/-- Without a match, match_api_version fails listing the apiVersions that
are available. -/
theorem match_api_version_missing {k n a : String} {records : List ManifestRecord}
    (h : records.find? (fun r2 => casefold r2.api_version == casefold a) = none) :
    match_api_version k n a records =
      .error (.apiVersionNotFound k n a (pySortedSet (records.map ManifestRecord.api_version))) := by
  unfold match_api_version
  rw [h]

/-! Lemmas about the case-insensitive ordering and the stable sort. -/

/-- Characters with equal code points are equal. -/
theorem charEq_of_toNat {a b : Char} (h : a.toNat = b.toNat) : a = b :=
  Char.ext (UInt32.ext h)

/-- Strict comparison is asymmetric. -/
theorem ltChars_asymm : ∀ (a b : List Char), ltChars a b = true → ltChars b a = false
  | [], [] => by simp [ltChars]
  | [], _ :: _ => fun _ => rfl
  | _ :: _, [] => by simp [ltChars]
  | c :: cs, d :: ds => by
    intro h
    rw [ltChars] at h ⊢
    by_cases h1 : c.toNat < d.toNat
    · rw [if_neg (by omega), if_pos h1]
    · by_cases h2 : d.toNat < c.toNat
      · rw [if_neg h1, if_pos h2] at h
        exact absurd h (by simp)
      · rw [if_neg h1, if_neg h2] at h
        rw [if_neg h2, if_neg h1]
        exact ltChars_asymm cs ds h

/-- Strict comparison is transitive. -/
theorem ltChars_trans : ∀ (a b c : List Char),
    ltChars a b = true → ltChars b c = true → ltChars a c = true
  | [], [], _ => by simp [ltChars]
  | [], _ :: _, [] => by
    intro _ h2
    simp [ltChars] at h2
  | [], _ :: _, _ :: _ => fun _ _ => rfl
  | _ :: _, [], _ => by
    intro h1
    simp [ltChars] at h1
  | _ :: _, _ :: _, [] => by
    intro _ h2
    simp [ltChars] at h2
  | a :: as, b :: bs, c :: cs => by
    intro h1 h2
    rw [ltChars] at h1 h2 ⊢
    by_cases p1 : a.toNat < b.toNat
    · by_cases p2 : b.toNat < c.toNat
      · rw [if_pos (by omega)]
      · by_cases q2 : c.toNat < b.toNat
        · rw [if_neg p2, if_pos q2] at h2
          exact absurd h2 (by simp)
        · rw [if_pos (by omega)]
    · by_cases q1 : b.toNat < a.toNat
      · rw [if_neg p1, if_pos q1] at h1
        exact absurd h1 (by simp)
      · rw [if_neg p1, if_neg q1] at h1
        by_cases p2 : b.toNat < c.toNat
        · rw [if_pos (by omega)]
        · by_cases q2 : c.toNat < b.toNat
          · rw [if_neg p2, if_pos q2] at h2
            exact absurd h2 (by simp)
          · rw [if_neg p2, if_neg q2] at h2
            rw [if_neg (by omega), if_neg (by omega)]
            exact ltChars_trans as bs cs h1 h2

/-- Lists that compare strictly below each other in neither direction are
equal. -/
theorem ltChars_eq_of_not_lt : ∀ (a b : List Char),
    ltChars a b = false → ltChars b a = false → a = b
  | [], [] => fun _ _ => rfl
  | [], _ :: _ => by
    intro h _
    simp [ltChars] at h
  | _ :: _, [] => by
    intro _ h
    simp [ltChars] at h
  | a :: as, b :: bs => by
    intro h1 h2
    rw [ltChars] at h1 h2
    by_cases p : a.toNat < b.toNat
    · rw [if_pos p] at h1
      exact absurd h1 (by simp)
    · by_cases q : b.toNat < a.toNat
      · rw [if_pos q] at h2
        exact absurd h2 (by simp)
      · rw [if_neg p, if_neg q] at h1
        rw [if_neg q, if_neg p] at h2
        have hab : a = b := charEq_of_toNat (by omega)
        rw [hab, ltChars_eq_of_not_lt as bs h1 h2]

/-- Not being below x is preserved downward: if y is not below x and z is
not below y then z is not below x. -/
theorem ltCI_not_lt_trans {x y z : String} (h1 : ltCI y x = false)
    (h2 : ltCI z y = false) : ltCI z x = false := by
  unfold ltCI at h1 h2 ⊢
  by_cases h : ltChars (casefold z).data (casefold x).data = true
  · by_cases hy : ltChars (casefold y).data (casefold z).data = true
    · exact absurd (ltChars_trans _ _ _ hy h) (by simp [h1])
    · have := ltChars_eq_of_not_lt _ _ h2 (by simpa using hy)
      rw [← this] at h1
      exact absurd h (by simp [h1])
  · simpa using h

/-- Membership in insertCI. -/
theorem mem_insertCI {x z : String} {ys : List String} :
    z ∈ insertCI x ys ↔ z = x ∨ z ∈ ys := by
  induction ys with
  | nil => simp [insertCI]
  | cons y ys ih =>
    unfold insertCI
    split
    · simp only [List.mem_cons, ih]
      tauto
    · simp only [List.mem_cons]

/-- insertCI is a permutation of consing. -/
theorem insertCI_perm (x : String) (ys : List String) :
    (insertCI x ys).Perm (x :: ys) := by
  induction ys with
  | nil => simp [insertCI]
  | cons y ys ih =>
    unfold insertCI
    split
    · exact ((ih.cons y).trans (List.Perm.swap x y ys)).symm.symm
    · exact List.Perm.refl _

/-- Inserting into a case-insensitively sorted list keeps it sorted. -/
theorem sortedCI_insertCI {x : String} {ys : List String} (h : sortedCI ys) :
    sortedCI (insertCI x ys) := by
  induction ys with
  | nil => simp [insertCI, sortedCI]
  | cons y ys ih =>
    rcases List.pairwise_cons.mp h with ⟨hy, hys⟩
    unfold insertCI
    split
    · rename_i hlt
      apply List.pairwise_cons.mpr
      constructor
      · intro z hz
        rcases mem_insertCI.mp hz with hz | hz
        · subst hz
          exact ltChars_asymm _ _ hlt
        · exact hy z hz
      · exact ih hys
    · rename_i hnlt
      apply List.pairwise_cons.mpr
      constructor
      · intro z hz
        rcases List.mem_cons.mp hz with hz | hz
        · subst hz
          simpa using hnlt
        · exact ltCI_not_lt_trans (by simpa using hnlt) (hy z hz)
      · exact h

/-- The sort is a permutation of its input. -/
theorem sortCaseInsensitive_perm (xs : List String) :
    (sortCaseInsensitive xs).Perm xs := by
  induction xs with
  | nil => exact List.Perm.refl _
  | cons x xs ih =>
    exact (insertCI_perm x (sortCaseInsensitive xs)).trans (ih.cons x)

/-- The sort output is sorted case-insensitively. -/
theorem sortedCI_sortCaseInsensitive (xs : List String) :
    sortedCI (sortCaseInsensitive xs) := by
  induction xs with
  | nil => simp [sortCaseInsensitive, sortedCI]
  | cons x xs ih => exact sortedCI_insertCI ih

/-! Lemmas about first-occurrence deduplication and the available lists. -/

/-- firstByKeyAux keeps elements in input order (a sublist). -/
theorem firstByKeyAux_sublist {α κ : Type} [DecidableEq κ] (key : α → κ)
    (seen : List κ) (xs : List α) : List.Sublist (firstByKeyAux key seen xs) xs := by
  induction xs generalizing seen with
  | nil => exact List.Sublist.refl []
  | cons x rest ih =>
    unfold firstByKeyAux
    split
    · exact (ih seen).cons x
    · exact (ih (key x :: seen)).cons₂ x

/-- Keys already seen never reappear in the output. -/
theorem firstByKeyAux_not_seen {α κ : Type} [DecidableEq κ] {key : α → κ}
    {seen : List κ} {xs : List α} {y : α} (h : y ∈ firstByKeyAux key seen xs) :
    key y ∉ seen := by
  induction xs generalizing seen with
  | nil => simp [firstByKeyAux] at h
  | cons x rest ih =>
    unfold firstByKeyAux at h
    split at h
    · exact ih h
    · rcases List.mem_cons.mp h with h | h
      · subst h
        assumption
      · intro hk
        exact ih h (List.mem_cons.mpr (Or.inr hk))

/-- Output keys are pairwise distinct. -/
theorem firstByKeyAux_pairwise {α κ : Type} [DecidableEq κ] (key : α → κ)
    (seen : List κ) (xs : List α) :
    (firstByKeyAux key seen xs).Pairwise (fun a b => key a ≠ key b) := by
  induction xs generalizing seen with
  | nil => simp [firstByKeyAux]
  | cons x rest ih =>
    unfold firstByKeyAux
    split
    · exact ih seen
    · apply List.pairwise_cons.mpr
      refine ⟨?_, ih (key x :: seen)⟩
      intro z hz hk
      exact firstByKeyAux_not_seen hz (hk ▸ List.mem_cons_self (key x) seen)

/-- Every unseen key class of the input is represented in the output. -/
theorem firstByKeyAux_complete {α κ : Type} [DecidableEq κ] {key : α → κ}
    {xs : List α} {x : α} (hx : x ∈ xs) :
    ∀ {seen : List κ}, key x ∉ seen →
      ∃ y ∈ firstByKeyAux key seen xs, key y = key x := by
  induction xs with
  | nil => simp at hx
  | cons a rest ih =>
    intro seen hs
    unfold firstByKeyAux
    rcases List.mem_cons.mp hx with hx1 | hx1
    · subst hx1
      rw [if_neg hs]
      exact ⟨x, List.mem_cons_self x _, rfl⟩
    · split
      · exact ih hx1 hs
      · by_cases hk : key x = key a
        · exact ⟨a, List.mem_cons_self a _, hk.symm⟩
        · have hs2 : key x ∉ key a :: seen := by
            intro hmem
            rcases List.mem_cons.mp hmem with h | h
            · exact hk h
            · exact hs h
          rcases ih hx1 hs2 with ⟨y, hy, hky⟩
          exact ⟨y, List.mem_cons.mpr (Or.inr hy), hky⟩

/-- pySortedSet has the same members as its input list. -/
theorem mem_pySortedSet {xs : List String} {x : String} :
    x ∈ pySortedSet xs ↔ x ∈ xs := by
  unfold pySortedSet
  rw [(sortCaseInsensitive_perm (firstByKey id xs)).mem_iff]
  constructor
  · intro h
    exact (firstByKeyAux_sublist id [] xs).mem h
  · intro h
    rcases @firstByKeyAux_complete String String _ id xs x h [] (by simp) with ⟨y, hy, hky⟩
    have hyx : y = x := hky
    subst hyx
    exact hy

/-- pySortedSet has no duplicate entries. -/
theorem nodup_pySortedSet (xs : List String) : (pySortedSet xs).Nodup := by
  unfold pySortedSet
  have hp : (firstByKey id xs).Pairwise (fun a b : String => a ≠ b) := by
    have := firstByKeyAux_pairwise (id : String → String) [] xs
    simpa [firstByKey] using this
  exact (List.Perm.pairwise_iff (fun h => Ne.symm h)
    (sortCaseInsensitive_perm (firstByKey id xs))).mpr hp

/-- pySortedSet is sorted case-insensitively. -/
theorem sortedCI_pySortedSet (xs : List String) : sortedCI (pySortedSet xs) := by
  unfold pySortedSet
  exact sortedCI_sortCaseInsensitive (firstByKey id xs)

/-- Every available kind is some record's kind, case preserved. -/
theorem mem_available_kinds {records : List ManifestRecord} {x : String}
    (h : x ∈ available_kinds records) : ∃ r ∈ records, r.kind = x := by
  unfold available_kinds at h
  rw [(sortCaseInsensitive_perm _).mem_iff] at h
  have hx : x ∈ records.map ManifestRecord.kind :=
    (firstByKeyAux_sublist casefold [] _).mem h
  rcases List.mem_map.mp hx with ⟨r, hr, hrx⟩
  exact ⟨r, hr, hrx⟩

/-- Every record's kind is represented among the available kinds up to
case. -/
theorem available_kinds_complete {records : List ManifestRecord}
    {r : ManifestRecord} (h : r ∈ records) :
    ∃ x ∈ available_kinds records, casefold x = casefold r.kind := by
  unfold available_kinds
  have hm : r.kind ∈ records.map ManifestRecord.kind := List.mem_map_of_mem _ h
  rcases @firstByKeyAux_complete String String _ casefold _ r.kind hm [] (by simp)
    with ⟨y, hy, hky⟩
  exact ⟨y, (sortCaseInsensitive_perm _).mem_iff.mpr hy, hky⟩

/-- Available kinds are deduplicated on the case-folded key. -/
theorem available_kinds_pairwise (records : List ManifestRecord) :
    (available_kinds records).Pairwise (fun a b => casefold a ≠ casefold b) := by
  unfold available_kinds
  exact (List.Perm.pairwise_iff (fun h => Ne.symm h)
    (sortCaseInsensitive_perm _)).mpr (firstByKeyAux_pairwise casefold [] _)

/-- Available kinds are sorted case-insensitively. -/
theorem available_kinds_sorted (records : List ManifestRecord) :
    sortedCI (available_kinds records) :=
  sortedCI_sortCaseInsensitive _

/-- Every available name is some record's name, case preserved. -/
theorem mem_available_names {records : List ManifestRecord} {x : String}
    (h : x ∈ available_names_for_kind records) : ∃ r ∈ records, r.name = x := by
  unfold available_names_for_kind at h
  rw [(sortCaseInsensitive_perm _).mem_iff] at h
  have hx : x ∈ records.map ManifestRecord.name :=
    (firstByKeyAux_sublist casefold [] _).mem h
  rcases List.mem_map.mp hx with ⟨r, hr, hrx⟩
  exact ⟨r, hr, hrx⟩

/-- Every record's name is represented among the available names up to
case. -/
theorem available_names_complete {records : List ManifestRecord}
    {r : ManifestRecord} (h : r ∈ records) :
    ∃ x ∈ available_names_for_kind records, casefold x = casefold r.name := by
  unfold available_names_for_kind
  have hm : r.name ∈ records.map ManifestRecord.name := List.mem_map_of_mem _ h
  rcases @firstByKeyAux_complete String String _ casefold _ r.name hm [] (by simp)
    with ⟨y, hy, hky⟩
  exact ⟨y, (sortCaseInsensitive_perm _).mem_iff.mpr hy, hky⟩

/-- Available names are deduplicated on the case-folded key. -/
theorem available_names_pairwise (records : List ManifestRecord) :
    (available_names_for_kind records).Pairwise (fun a b => casefold a ≠ casefold b) := by
  unfold available_names_for_kind
  exact (List.Perm.pairwise_iff (fun h => Ne.symm h)
    (sortCaseInsensitive_perm _)).mpr (firstByKeyAux_pairwise casefold [] _)

/-- Available names are sorted case-insensitively. -/
theorem available_names_sorted (records : List ManifestRecord) :
    sortedCI (available_names_for_kind records) :=
  sortedCI_sortCaseInsensitive _

/-! Lemmas about the duplicate policy and the document parser. -/

/-- A record whose key was already seen fails under the error policy. -/
theorem apply_dup_err_seen {seen : List (String × String × String)}
    {r : ManifestRecord} {rest : List ManifestRecord} (h : r.duplicate_key ∈ seen) :
    apply_duplicate_policy .error seen (r :: rest) =
      .error (.duplicateManifest r.api_version r.kind r.name) := by
  simp [apply_duplicate_policy, h]

/-- A record whose key was already seen is dropped under the ignore
policy. -/
theorem apply_dup_ign_seen {seen : List (String × String × String)}
    {r : ManifestRecord} {rest : List ManifestRecord} (h : r.duplicate_key ∈ seen) :
    apply_duplicate_policy .ignore seen (r :: rest) =
      apply_duplicate_policy .ignore seen rest := by
  simp [apply_duplicate_policy, h]

/-- A record with a fresh key is kept and its key recorded, under either
policy. -/
theorem apply_dup_new {pol : DuplicatePolicy} {seen : List (String × String × String)}
    {r : ManifestRecord} {rest : List ManifestRecord} (h : r.duplicate_key ∉ seen) :
    apply_duplicate_policy pol seen (r :: rest) =
      match apply_duplicate_policy pol (r.duplicate_key :: seen) rest with
      | .ok deduped => .ok (r :: deduped)
      | .error e => .error e := by
  simp [apply_duplicate_policy, h]

/-- The declarative first-wins filter is a sublist of its input. -/
theorem firstWinsAux_sublist : ∀ (l pre : List ManifestRecord),
    List.Sublist (firstWinsAux pre l) l
  | [], _ => List.Sublist.refl []
  | r :: rest, pre => by
    unfold firstWinsAux
    split
    · exact (firstWinsAux_sublist rest (pre ++ [r])).cons r
    · exact (firstWinsAux_sublist rest (pre ++ [r])).cons₂ r

/-- Under the ignore policy the walk with a seen set computes exactly the
declarative first-wins filter. -/
theorem apply_dup_ignore_eq : ∀ (rest pre : List ManifestRecord)
    (seen : List (String × String × String)),
    (∀ k, k ∈ seen ↔ k ∈ pre.map ManifestRecord.duplicate_key) →
    apply_duplicate_policy .ignore seen rest = .ok (firstWinsAux pre rest)
  | [], _, _, _ => rfl
  | r :: rest, pre, seen, hinv => by
    unfold firstWinsAux
    by_cases hm : r.duplicate_key ∈ seen
    · rw [apply_dup_ign_seen hm, if_pos ((hinv _).mp hm)]
      apply apply_dup_ignore_eq rest (pre ++ [r]) seen
      intro k
      rw [hinv k]
      simp only [List.map_append, List.mem_append, List.map_cons, List.map_nil,
        List.mem_cons]
      constructor
      · intro hk
        exact Or.inl hk
      · intro hk
        rcases hk with hk | hk
        · exact hk
        · rcases hk with hk | hk
          · exact hk ▸ (hinv r.duplicate_key).mp hm
          · cases hk
    · rw [apply_dup_new hm, if_neg (fun hx => hm ((hinv _).mpr hx))]
      rw [apply_dup_ignore_eq rest (pre ++ [r]) (r.duplicate_key :: seen) ?_]
      · intro k
        simp only [List.mem_cons, hinv k, List.map_append, List.mem_append,
          List.map_cons, List.map_nil]
        tauto

/-- Without duplicate keys, the error policy returns the records
unchanged. -/
theorem apply_dup_error_ok : ∀ (rest : List ManifestRecord)
    (seen : List (String × String × String)),
    (∀ r ∈ rest, r.duplicate_key ∉ seen) →
    (rest.map ManifestRecord.duplicate_key).Nodup →
    apply_duplicate_policy .error seen rest = .ok rest
  | [], _, _, _ => rfl
  | r :: rest, seen, hno, hnd => by
    have hr : r.duplicate_key ∉ seen := hno r (List.mem_cons_self r rest)
    rw [apply_dup_new hr]
    rw [List.map_cons, List.nodup_cons] at hnd
    have hrec : apply_duplicate_policy .error (r.duplicate_key :: seen) rest = .ok rest := by
      apply apply_dup_error_ok rest (r.duplicate_key :: seen) ?_ hnd.2
      intro x hx hmem
      rcases List.mem_cons.mp hmem with h | h
      · exact hnd.1 (h ▸ List.mem_map_of_mem ManifestRecord.duplicate_key hx)
      · exact hno x (List.mem_cons.mpr (Or.inr hx)) h
    rw [hrec]

/-- Under the error policy, the walk fails at the first record whose key
repeats, naming that record's fields. -/
theorem apply_dup_error_dup : ∀ (pre2 : List ManifestRecord)
    (seen : List (String × String × String)) (r : ManifestRecord)
    (post : List ManifestRecord),
    (∀ x ∈ pre2, x.duplicate_key ∉ seen) →
    (pre2.map ManifestRecord.duplicate_key).Nodup →
    (r.duplicate_key ∈ seen ∨ r.duplicate_key ∈ pre2.map ManifestRecord.duplicate_key) →
    apply_duplicate_policy .error seen (pre2 ++ r :: post) =
      .error (.duplicateManifest r.api_version r.kind r.name)
  | [], seen, r, post, _, _, hin => by
    have hr : r.duplicate_key ∈ seen := by
      rcases hin with h | h
      · exact h
      · simp at h
    rw [List.nil_append]
    exact apply_dup_err_seen hr
  | x :: pre2, seen, r, post, hno, hnd, hin => by
    have hx : x.duplicate_key ∉ seen := hno x (List.mem_cons_self x pre2)
    rw [List.cons_append, apply_dup_new hx]
    rw [List.map_cons, List.nodup_cons] at hnd
    have hrec : apply_duplicate_policy .error (x.duplicate_key :: seen) (pre2 ++ r :: post) =
        .error (.duplicateManifest r.api_version r.kind r.name) := by
      apply apply_dup_error_dup pre2 (x.duplicate_key :: seen) r post ?_ hnd.2 ?_
      · intro y hy hmem
        rcases List.mem_cons.mp hmem with h | h
        · exact hnd.1 (h ▸ List.mem_map_of_mem ManifestRecord.duplicate_key hy)
        · exact hno y (List.mem_cons.mpr (Or.inr hy)) h
      · rcases hin with h | h
        · exact Or.inl (List.mem_cons.mpr (Or.inr h))
        · rw [List.map_cons] at h
          rcases List.mem_cons.mp h with h2 | h2
          · exact Or.inl (List.mem_cons.mpr (Or.inl h2))
          · exact Or.inr h2
    rw [hrec]

/-- Records surviving any policy come from the input. -/
theorem apply_dup_subset : ∀ (rest : List ManifestRecord)
    (pol : DuplicatePolicy) (seen : List (String × String × String))
    (out : List ManifestRecord),
    apply_duplicate_policy pol seen rest = .ok out → ∀ r ∈ out, r ∈ rest
  | [], _, _, out, h => by
    intro r hr
    cases h
    simp at hr
  | x :: rest, pol, seen, out, h => by
    intro r hr
    by_cases hm : x.duplicate_key ∈ seen
    · cases pol with
      | error =>
        rw [apply_dup_err_seen hm] at h
        cases h
      | ignore =>
        rw [apply_dup_ign_seen hm] at h
        exact List.mem_cons.mpr (Or.inr (apply_dup_subset rest .ignore seen out h r hr))
    · rw [apply_dup_new hm] at h
      cases hrec : apply_duplicate_policy pol (x.duplicate_key :: seen) rest with
      | error e =>
        rw [hrec] at h
        cases h
      | ok ded =>
        rw [hrec] at h
        cases h
        rcases List.mem_cons.mp hr with h | h
        · exact List.mem_cons.mpr (Or.inl h)
        · exact List.mem_cons.mpr
            (Or.inr (apply_dup_subset rest pol (x.duplicate_key :: seen) ded hrec r h))

/-- A value accepted by the string validation is a non-empty string. -/
theorem getStr?_some_ne_empty {o : Option Yaml} {s : String}
    (h : getStr? o = some s) : s ≠ "" := by
  match o, h with
  | some (.str s1), h =>
    by_cases hs : s1 = ""
    · rw [getStr?, if_pos hs] at h
      cases h
    · rw [getStr?, if_neg hs] at h
      cases h
      exact hs

/-- Null documents are skipped but still counted in the ordinal. -/
theorem parseRecords_cons_null (docs : List Yaml) (n : Nat) :
    parseRecords (.null :: docs) n = parseRecords docs (n + 1) := rfl

/-- A document failing validation makes the walk fail with the message of
its first failing check. -/
theorem parseRecords_head_bad {d : Yaml} (hd : docOk d = false)
    (rest : List Yaml) (n : Nat) :
    parseRecords (d :: rest) n = .error (.manifestParse (docIssueMsg d n)) := by
  cases d with
  | null => simp [docOk] at hd
  | map entries =>
    by_cases h1 : getStr? (lookupKey entries "apiVersion") = none
    · simp [parseRecords, docIssueMsg, h1]
    · rcases Option.ne_none_iff_exists'.mp h1 with ⟨av, hav⟩
      by_cases h2 : getStr? (lookupKey entries "kind") = none
      · simp [parseRecords, docIssueMsg, hav, h1, h2]
      · rcases Option.ne_none_iff_exists'.mp h2 with ⟨kd, hkd⟩
        by_cases h3 : getStr? (metaName entries) = none
        · simp [parseRecords, docIssueMsg, hav, h1, hkd, h2, h3]
        · rcases Option.ne_none_iff_exists'.mp h3 with ⟨nm, hnm⟩
          exfalso
          simp [docOk, hav, hkd, hnm] at hd
  | bool b => simp [parseRecords, docIssueMsg]
  | int i => simp [parseRecords, docIssueMsg]
  | str s => simp [parseRecords, docIssueMsg]
  | seq items => simp [parseRecords, docIssueMsg]

/-- Walking past a prefix of valid documents preserves a later failure. -/
theorem parseRecords_append_err : ∀ (pre : List Yaml),
    (∀ p ∈ pre, docOk p = true) →
    ∀ (n : Nat) (rest : List Yaml) (e : LoaderError),
    parseRecords rest (n + pre.length) = .error e →
    parseRecords (pre ++ rest) n = .error e
  | [], _, n, rest, e, h => by
    rw [List.nil_append]
    simpa using h
  | d :: pre, hok, n, rest, e, h => by
    have hd : docOk d = true := hok d (List.mem_cons_self d pre)
    have hpre : ∀ p ∈ pre, docOk p = true :=
      fun p hp => hok p (List.mem_cons.mpr (Or.inr hp))
    have harith : (n + 1) + pre.length = n + (d :: pre).length := by
      simp
      omega
    have hrec : parseRecords (pre ++ rest) (n + 1) = .error e := by
      apply parseRecords_append_err pre hpre (n + 1) rest e
      rw [harith]
      exact h
    cases d with
    | null =>
      rw [List.cons_append, parseRecords_cons_null]
      exact hrec
    | map entries =>
      rw [docOk] at hd
      rcases Option.ne_none_iff_exists'.mp
        (show getStr? (lookupKey entries "apiVersion") ≠ none by
          intro hx
          rw [hx] at hd
          simp at hd) with ⟨av, hav⟩
      rcases Option.ne_none_iff_exists'.mp (show getStr? (lookupKey entries "kind") ≠ none by
        intro hx
        rw [hx] at hd
        simp at hd) with ⟨kd, hkd⟩
      rcases Option.ne_none_iff_exists'.mp (show getStr? (metaName entries) ≠ none by
        intro hx
        rw [hx] at hd
        simp at hd) with ⟨nm, hnm⟩
      rw [List.cons_append]
      rw [show parseRecords (Yaml.map entries :: (pre ++ rest)) n =
          (match parseRecords (pre ++ rest) (n + 1) with
            | .ok records => .ok (ManifestRecord.mk av kd nm (.map entries) :: records)
            | .error e2 => .error e2) by
        rw [parseRecords, hav, hkd, hnm]]
      rw [hrec]
    | bool b => simp [docOk] at hd
    | int i => simp [docOk] at hd
    | str s => simp [docOk] at hd
    | seq items => simp [docOk] at hd

/-- Every record built by the walk has non-empty identity fields. -/
theorem parseRecords_fields : ∀ (docs : List Yaml) (n : Nat)
    (recs : List ManifestRecord), parseRecords docs n = .ok recs →
    ∀ r ∈ recs, r.api_version ≠ "" ∧ r.kind ≠ "" ∧ r.name ≠ ""
  | [], n, recs, h => by
    intro r hr
    cases h
    simp at hr
  | d :: rest, n, recs, h => by
    intro r hr
    cases d with
    | null => exact parseRecords_fields rest (n + 1) recs h r hr
    | map entries =>
      cases hav : getStr? (lookupKey entries "apiVersion") with
      | none => rw [parseRecords, hav] at h; cases h
      | some av =>
        cases hkd : getStr? (lookupKey entries "kind") with
        | none => rw [parseRecords, hav, hkd] at h; cases h
        | some kd =>
          cases hnm : getStr? (metaName entries) with
          | none => rw [parseRecords, hav, hkd, hnm] at h; cases h
          | some nm =>
            cases hrec : parseRecords rest (n + 1) with
            | error e => rw [parseRecords, hav, hkd, hnm, hrec] at h; cases h
            | ok recs2 =>
              rw [parseRecords, hav, hkd, hnm, hrec] at h
              cases h
              rcases List.mem_cons.mp hr with h | h
              · subst h
                exact ⟨getStr?_some_ne_empty hav, getStr?_some_ne_empty hkd,
                  getStr?_some_ne_empty hnm⟩
              · exact parseRecords_fields rest (n + 1) recs2 hrec r h
    | bool b => simp [parseRecords] at h
    | int i => simp [parseRecords] at h
    | str s => simp [parseRecords] at h
    | seq items => simp [parseRecords] at h

/-- get propagates a selector-parsing failure unchanged. -/
theorem get_invalid {rs : List ManifestRecord} {sel : String}
    (h : (effSegs sel).length < 2) :
    ManifestIndex.get ⟨rs⟩ sel = .error (.invalidSelector sel) := by
  simp [ManifestIndex.get, parse_selector_invalid h]

/-! Claim theorems. -/

/-- Claim C2: get first strips leading and trailing slashes, splits on
slash and drops empty segments; fewer than two segments fail with
InvalidSelectorError stating the expected kind/name or
apiVersion/kind/name shape, and otherwise the last segment is the name,
the second-to-last the kind, and the re-joined leading segments the
optional apiVersion, absent when no segments remain. -/
theorem c2_selector_grammar (s : String) :
    ((effSegs s).length < 2 →
      parse_selector s = .error (.invalidSelector s) ∧
      renderGetErr (.invalidSelector s) =
        "Invalid selector " ++ pyRepr s ++
          ". Expected \x27kind/name\x27 or \x27apiVersion/kind/name\x27.") ∧
    (∀ ps k n, effSegs s = ps ++ [k, n] →
      parse_selector s =
        .ok (if ps = [] then none else some (joinSlash ps), k, n)) := by
  constructor
  · intro h
    exact ⟨parse_selector_invalid h, rfl⟩
  · intro ps k n h
    exact parse_selector_ok h

/-- Witness for C2 at concrete selectors. -/
theorem c2_selector_grammar_witness :
    parse_selector "Deployment" = .error (.invalidSelector "Deployment") ∧
    parse_selector "apps/v1/Deployment/web" = .ok (some "apps/v1", "Deployment", "web") := by
  constructor
  · exact ((c2_selector_grammar "Deployment").1 (by decide)).1
  · exact (c2_selector_grammar "apps/v1/Deployment/web").2 ["apps", "v1"]
      "Deployment" "web" (by decide)

/-- Claim C8 counterexample: the invalid-selector failure is raised as the
host's builtin ValueError and the kind-not-found failure as the host's
builtin KeyError, not as distinct loader-defined error kinds. -/
theorem c8_counterexample :
    ManifestIndex.get ⟨[]⟩ "Deployment" = .error (.invalidSelector "Deployment") ∧
    pyExcClassGet (.invalidSelector "Deployment") = .valueError ∧
    PyExc.isBuiltinExc .valueError = true ∧
    ManifestIndex.get ⟨[]⟩ "Deployment/web" = .error (.kindNotFound "Deployment" []) ∧
    pyExcClassGet (.kindNotFound "Deployment" []) = .keyError ∧
    PyExc.isBuiltinExc .keyError = true :=
  ⟨rfl, rfl, rfl, rfl, rfl, rfl⟩

/-- Claim C8 amended: parse, duplicate and ambiguity failures carry the
loader's own distinct exception classes, but a selector with fewer than
two effective segments is raised as the builtin ValueError, and every
not-found stage is raised as the builtin KeyError of the host language. -/
theorem c8_amended_error_classes (idx : ManifestIndex) (sel : String)
    (e : GetErr) (h : ManifestIndex.get idx sel = .error e) (le : LoaderError) :
    (outcomeOf (ManifestIndex.get idx sel) = .invalidSelector →
      pyExcClassGet e = .valueError ∧ PyExc.isBuiltinExc (pyExcClassGet e) = true) ∧
    (outcomeOf (ManifestIndex.get idx sel) = .kindNotFound ∨
        outcomeOf (ManifestIndex.get idx sel) = .nameNotFound ∨
        outcomeOf (ManifestIndex.get idx sel) = .apiVersionNotFound →
      pyExcClassGet e = .keyError ∧ PyExc.isBuiltinExc (pyExcClassGet e) = true) ∧
    (outcomeOf (ManifestIndex.get idx sel) = .ambiguous →
      pyExcClassGet e = .ambiguousManifestError ∧
        PyExc.isBuiltinExc (pyExcClassGet e) = false) ∧
    PyExc.isBuiltinExc (pyExcClassLoader le) = false := by
  rw [h]
  refine ⟨?_, ?_, ?_, ?_⟩
  · intro ho
    cases e with
    | invalidSelector s2 => exact ⟨rfl, rfl⟩
    | kindNotFound a b => simp [outcomeOf] at ho
    | nameNotFound a b c => simp [outcomeOf] at ho
    | apiVersionNotFound a b c d => simp [outcomeOf] at ho
    | ambiguousManifest a b c => simp [outcomeOf] at ho
    | indexOutOfRange => simp [outcomeOf] at ho
  · intro ho
    cases e with
    | invalidSelector s2 => rcases ho with ho | ho | ho <;> simp [outcomeOf] at ho
    | kindNotFound a b => exact ⟨rfl, rfl⟩
    | nameNotFound a b c => exact ⟨rfl, rfl⟩
    | apiVersionNotFound a b c d => exact ⟨rfl, rfl⟩
    | ambiguousManifest a b c => rcases ho with ho | ho | ho <;> simp [outcomeOf] at ho
    | indexOutOfRange => rcases ho with ho | ho | ho <;> simp [outcomeOf] at ho
  · intro ho
    cases e with
    | invalidSelector s2 => simp [outcomeOf] at ho
    | kindNotFound a b => simp [outcomeOf] at ho
    | nameNotFound a b c => simp [outcomeOf] at ho
    | apiVersionNotFound a b c d => simp [outcomeOf] at ho
    | ambiguousManifest a b c => exact ⟨rfl, rfl⟩
    | indexOutOfRange => simp [outcomeOf] at ho
  · cases le with
    | manifestParse m => rfl
    | duplicateManifest a b c => rfl

/-- Witness for C8 amended at a concrete failing lookup. -/
theorem c8_amended_error_classes_witness :
    pyExcClassGet (.invalidSelector "Deployment") = .valueError ∧
    PyExc.isBuiltinExc (pyExcClassGet (.invalidSelector "Deployment")) = true :=
  (c8_amended_error_classes ⟨[]⟩ "Deployment" (.invalidSelector "Deployment") rfl
    (.manifestParse "x")).1 rfl

/-- Claim C10: no whitespace normalisation happens during matching: a
selector whose name segment carries a trailing space fails at the name
stage even though a record differing only by that space kind-matches. -/
theorem c10_no_whitespace_normalization (rs : List ManifestRecord)
    (r : ManifestRecord) (k : String) (hmem : r ∈ rs)
    (hk : casefold r.kind = casefold k) (hk0 : k ≠ "") (hk1 : '/' ∉ k.data)
    (hn0 : r.name ≠ "") (hn1 : '/' ∉ r.name.data)
    (hnos : ∀ r2 ∈ rs, (casefold r2.name).data.getLast? ≠ some ' ') :
    r ∈ kindFilter rs k ∧
    ManifestIndex.get ⟨rs⟩ (k ++ "/" ++ (r.name ++ " ")) =
      .error (.nameNotFound k (r.name ++ " ")
        (available_names_for_kind (kindFilter rs k))) := by
  have hrk : r ∈ kindFilter rs k := by
    unfold kindFilter
    exact List.mem_filter.mpr ⟨hmem, by simp [hk]⟩
  refine ⟨hrk, ?_⟩
  have hsel0 : r.name ++ " " ≠ "" := by
    intro hx
    have hd := congrArg String.data hx
    rw [String.data_append] at hd
    simp at hd
  have hsel1 : '/' ∉ (r.name ++ " ").data := by
    rw [String.data_append]
    intro hx
    rcases List.mem_append.mp hx with hx | hx
    · exact hn1 hx
    · simp at hx
  have hp := parse_selector_two hk0 hk1 hsel0 hsel1
  have hend : (casefold (r.name ++ " ")).data.getLast? = some ' ' := by
    rw [casefold_append, String.data_append,
      show (casefold " ").data = [' '] from rfl]
    exact List.getLast?_concat _
  have hnf : nameFilter (kindFilter rs k) (r.name ++ " ") = [] := by
    unfold nameFilter
    rw [List.filter_eq_nil_iff]
    intro r2 hr2
    have h2 : r2 ∈ rs := List.Sublist.mem hr2 (List.filter_sublist rs)
    intro hbeq
    have heq : casefold r2.name = casefold (r.name ++ " ") := by
      exact eq_of_beq hbeq
    exact hnos r2 h2 (heq ▸ hend)
  have hkne : kindFilter rs k ≠ [] := by
    intro hx
    rw [hx] at hrk
    simp at hrk
  exact get_name_missing hp hkne hnf

/-- Witness for C10 at a concrete record and padded selector. -/
theorem c10_no_whitespace_normalization_witness :
    (⟨"apps/v1", "Deployment", "web", .str "m"⟩ : ManifestRecord) ∈
      kindFilter [⟨"apps/v1", "Deployment", "web", .str "m"⟩] "Deployment" ∧
    ManifestIndex.get ⟨[⟨"apps/v1", "Deployment", "web", .str "m"⟩]⟩
        ("Deployment" ++ "/" ++ ("web" ++ " ")) =
      .error (.nameNotFound "Deployment" ("web" ++ " ")
        (available_names_for_kind
          (kindFilter [⟨"apps/v1", "Deployment", "web", .str "m"⟩] "Deployment"))) :=
  c10_no_whitespace_normalization [⟨"apps/v1", "Deployment", "web", .str "m"⟩]
    ⟨"apps/v1", "Deployment", "web", .str "m"⟩ "Deployment"
    (List.mem_cons_self _ _) rfl (by decide) (by decide) (by decide) (by decide)
    (by decide)

/-- Claim C3: the duplicate policy walks records in input order tracking
seen case-folded (kind, name, apiVersion) keys; the first record of each
key is kept in input position, a later record sharing a key fails with
DuplicateManifestError naming its fields under the error policy and is
silently dropped under the ignore policy, and records differing only in
case collide on the same key. -/
theorem c3_duplicate_policy (records : List ManifestRecord) :
    (apply_duplicate_policy .ignore [] records = .ok (firstWinsAux [] records)) ∧
    List.Sublist (firstWinsAux [] records) records ∧
    ((records.map ManifestRecord.duplicate_key).Nodup →
      apply_duplicate_policy .error [] records = .ok records) ∧
    (∀ pre r post, records = pre ++ r :: post →
      (pre.map ManifestRecord.duplicate_key).Nodup →
      r.duplicate_key ∈ pre.map ManifestRecord.duplicate_key →
      apply_duplicate_policy .error [] records =
        .error (.duplicateManifest r.api_version r.kind r.name)) ∧
    (∀ r1 r2 : ManifestRecord, casefold r1.kind = casefold r2.kind →
      casefold r1.name = casefold r2.name →
      casefold r1.api_version = casefold r2.api_version →
      r1.duplicate_key = r2.duplicate_key) := by
  refine ⟨?_, ?_, ?_, ?_, ?_⟩
  · exact apply_dup_ignore_eq records [] [] (by simp)
  · exact firstWinsAux_sublist records []
  · intro hnd
    exact apply_dup_error_ok records [] (by simp) hnd
  · intro pre r post hsplit hnd hmem
    rw [hsplit]
    exact apply_dup_error_dup pre [] r post (by simp) hnd (Or.inr hmem)
  · intro r1 r2 h1 h2 h3
    unfold ManifestRecord.duplicate_key
    rw [h1, h2, h3]

/-- Witness for C3: two case-variant records collide; the error policy
names the later one and the ignore policy keeps only the first. -/
theorem c3_duplicate_policy_witness :
    apply_duplicate_policy .error []
        [⟨"APPS/v1", "Deployment", "API", .str "a"⟩,
          ⟨"apps/V1", "deployment", "api", .str "b"⟩] =
      .error (.duplicateManifest "apps/V1" "deployment" "api") ∧
    apply_duplicate_policy .ignore []
        [⟨"APPS/v1", "Deployment", "API", .str "a"⟩,
          ⟨"apps/V1", "deployment", "api", .str "b"⟩] =
      .ok [⟨"APPS/v1", "Deployment", "API", .str "a"⟩] := by
  constructor
  · exact (c3_duplicate_policy _).2.2.2.1
      [⟨"APPS/v1", "Deployment", "API", .str "a"⟩]
      ⟨"apps/V1", "deployment", "api", .str "b"⟩ [] rfl (by decide) (by decide)
  · exact (c3_duplicate_policy
      [⟨"APPS/v1", "Deployment", "API", .str "a"⟩,
        ⟨"apps/V1", "deployment", "api", .str "b"⟩]).1

/-- Claim C4: the parser skips null documents while counting them in the
ordinal; a non-null non-mapping document fails naming its 1-based ordinal,
and a mapping document failing a field check fails naming exactly that
field (validated in the order apiVersion, kind, metadata.name) and the
ordinal. -/
theorem c4_document_validation (pre : List Yaml) (d : Yaml) (post : List Yaml)
    (pol : DuplicatePolicy) (hpre : ∀ p ∈ pre, docOk p = true) :
    (d ≠ .null → (∀ entries, d ≠ .map entries) →
      parse_manifest_documents (pre ++ d :: post) pol =
        .error (.manifestParse (notMappingMsg (pre.length + 1)))) ∧
    (∀ entries, d = .map entries →
      getStr? (lookupKey entries "apiVersion") = none →
      parse_manifest_documents (pre ++ d :: post) pol =
        .error (.manifestParse (missingFieldMsg (pre.length + 1) "apiVersion"))) ∧
    (∀ entries av, d = .map entries →
      getStr? (lookupKey entries "apiVersion") = some av →
      getStr? (lookupKey entries "kind") = none →
      parse_manifest_documents (pre ++ d :: post) pol =
        .error (.manifestParse (missingFieldMsg (pre.length + 1) "kind"))) ∧
    (∀ entries av kd, d = .map entries →
      getStr? (lookupKey entries "apiVersion") = some av →
      getStr? (lookupKey entries "kind") = some kd →
      getStr? (metaName entries) = none →
      parse_manifest_documents (pre ++ d :: post) pol =
        .error (.manifestParse (missingFieldMsg (pre.length + 1) "metadata.name"))) ∧
    (∀ docs m, parseRecords (.null :: docs) m = parseRecords docs (m + 1)) := by
  have main : docOk d = false →
      parse_manifest_documents (pre ++ d :: post) pol =
        .error (.manifestParse (docIssueMsg d (pre.length + 1))) := by
    intro hd
    unfold parse_manifest_documents
    have hhead := parseRecords_head_bad hd post (1 + pre.length)
    have herr := parseRecords_append_err pre hpre 1 (d :: post)
      (.manifestParse (docIssueMsg d (1 + pre.length))) hhead
    rw [Nat.add_comm 1 pre.length] at herr
    rw [herr]
  refine ⟨?_, ?_, ?_, ?_, ?_⟩
  · intro h0 h1
    cases d with
    | null => exact absurd rfl h0
    | map entries => exact absurd rfl (h1 entries)
    | bool b => exact main rfl
    | int i => exact main rfl
    | str s => exact main rfl
    | seq items => exact main rfl
  · intro entries hd hav
    subst hd
    have h := main (by simp [docOk, hav])
    rw [show docIssueMsg (.map entries) (pre.length + 1) =
        missingFieldMsg (pre.length + 1) "apiVersion" by
      simp [docIssueMsg, hav]] at h
    exact h
  · intro entries av hd hav hkd
    subst hd
    have h := main (by simp [docOk, hkd])
    rw [show docIssueMsg (.map entries) (pre.length + 1) =
        missingFieldMsg (pre.length + 1) "kind" by
      simp [docIssueMsg, hav, hkd]] at h
    exact h
  · intro entries av kd hd hav hkd hnm
    subst hd
    have h := main (by simp [docOk, hnm])
    rw [show docIssueMsg (.map entries) (pre.length + 1) =
        missingFieldMsg (pre.length + 1) "metadata.name" by
      simp [docIssueMsg, hav, hkd, hnm]] at h
    exact h
  · intro docs m
    rfl

/-- Witness for C4: a valid document followed by a scalar document fails
naming ordinal 2, and a document without kind fails naming kind. -/
theorem c4_document_validation_witness :
    parse_manifest_documents
        [.map [("apiVersion", .str "v1"), ("kind", .str "ConfigMap"),
          ("metadata", .map [("name", .str "x")])], .str "oops"] .error =
      .error (.manifestParse (notMappingMsg 2)) ∧
    parse_manifest_documents
        [.map [("apiVersion", .str "v1"),
          ("metadata", .map [("name", .str "x")])]] .error =
      .error (.manifestParse (missingFieldMsg 1 "kind")) := by
  constructor
  · exact (c4_document_validation
      [.map [("apiVersion", .str "v1"), ("kind", .str "ConfigMap"),
        ("metadata", .map [("name", .str "x")])]]
      (.str "oops") [] .error (by decide)).1
      (fun h => Yaml.noConfusion h) (fun _ h => Yaml.noConfusion h)
  · exact (c4_document_validation []
      (.map [("apiVersion", .str "v1"), ("metadata", .map [("name", .str "x")])])
      [] .error (by decide)).2.2.1
      [("apiVersion", .str "v1"), ("metadata", .map [("name", .str "x")])]
      "v1" rfl (by decide) (by decide)

/-- Claim C5: with any invalid document the pipeline fails, under either
policy, with the ParseError of the earliest invalid document; and every
record of a successfully built index has non-empty apiVersion, kind and
name. -/
theorem c5_earliest_error_and_invariant (pre : List Yaml) (d : Yaml)
    (post : List Yaml) (hpre : ∀ p ∈ pre, docOk p = true)
    (hd : docOk d = false) :
    (∀ pol, parse_manifest_documents (pre ++ d :: post) pol =
      .error (.manifestParse (docIssueMsg d (pre.length + 1)))) ∧
    (∀ docs pol idx, parse_manifest_documents docs pol = .ok idx →
      ∀ r ∈ idx.records, r.api_version ≠ "" ∧ r.kind ≠ "" ∧ r.name ≠ "") := by
  constructor
  · intro pol
    unfold parse_manifest_documents
    have hhead := parseRecords_head_bad hd post (1 + pre.length)
    have herr := parseRecords_append_err pre hpre 1 (d :: post)
      (.manifestParse (docIssueMsg d (1 + pre.length))) hhead
    rw [Nat.add_comm 1 pre.length] at herr
    rw [herr]
  · intro docs pol idx h r hr
    unfold parse_manifest_documents at h
    split at h
    · cases h
    · rename_i recs hpr
      split at h
      · cases h
      · rename_i ded hap
        cases h
        exact parseRecords_fields docs 1 recs hpr r
          (apply_dup_subset recs pol [] ded hap r hr)

/-- Witness for C5: the same invalid batch fails identically under both
policies, and a built index satisfies the field invariant. -/
theorem c5_earliest_error_and_invariant_witness :
    parse_manifest_documents
        [.null, .map [("kind", .str "Service")], .str "later"] .error =
      .error (.manifestParse (missingFieldMsg 2 "apiVersion")) ∧
    parse_manifest_documents
        [.null, .map [("kind", .str "Service")], .str "later"] .ignore =
      .error (.manifestParse (missingFieldMsg 2 "apiVersion")) := by
  have h := c5_earliest_error_and_invariant [.null]
    (.map [("kind", .str "Service")]) [.str "later"] (by decide) (by decide)
  exact ⟨h.1 .error, h.1 .ignore⟩

/-- Claim C6: two selectors whose effective segment sequences agree
pointwise up to case folding resolve identically: they succeed or fail at
the same stage, and return the identical document when they succeed. -/
theorem c6_case_insensitive_get (rs : List ManifestRecord) (s1 s2 : String)
    (h : (effSegs s1).map casefold = (effSegs s2).map casefold) :
    outcomeOf (ManifestIndex.get ⟨rs⟩ s1) = outcomeOf (ManifestIndex.get ⟨rs⟩ s2) := by
  have hlen : (effSegs s1).length = (effSegs s2).length := by
    have h2 := congrArg List.length h
    simpa using h2
  by_cases hsmall : (effSegs s1).length < 2
  · have hsmall2 : (effSegs s2).length < 2 := by
      rw [← hlen]
      exact hsmall
    rw [get_invalid hsmall, get_invalid hsmall2]
    rfl
  · have h2 : 2 ≤ (effSegs s1).length := Nat.le_of_not_lt hsmall
    obtain ⟨ps1, k1, n1, hdec1⟩ := exists_two_decomp h2
    obtain ⟨ps2, k2, n2, hdec2⟩ := exists_two_decomp (by rw [← hlen]; exact h2)
    have hmap : ps1.map casefold ++ [casefold k1, casefold n1] =
        ps2.map casefold ++ [casefold k2, casefold n2] := by
      have h3 := h
      rw [hdec1, hdec2] at h3
      simpa [List.map_append] using h3
    have hinj := List.append_inj' hmap (by simp)
    have hps : ps1.map casefold = ps2.map casefold := hinj.1
    have hk : casefold k1 = casefold k2 := by
      have h4 := hinj.2
      simp at h4
      exact h4.1
    have hn : casefold n1 = casefold n2 := by
      have h4 := hinj.2
      simp at h4
      exact h4.2
    have hp1 := parse_selector_ok hdec1
    have hp2 := parse_selector_ok hdec2
    have hpl : ps1.length = ps2.length := by
      have h5 := congrArg List.length hps
      simpa using h5
    have hpsiff : ps1 = [] ↔ ps2 = [] := by
      constructor
      · intro hx
        rw [hx] at hpl
        exact List.length_eq_zero.mp hpl.symm
      · intro hx
        rw [hx] at hpl
        exact List.length_eq_zero.mp hpl
    have hkf : kindFilter rs k1 = kindFilter rs k2 := by
      unfold kindFilter
      rw [hk]
    by_cases hkfe : kindFilter rs k1 = []
    · rw [get_kind_missing hp1 hkfe, get_kind_missing hp2 (hkf ▸ hkfe)]
      rfl
    · have hkfe2 : kindFilter rs k2 ≠ [] := by
        rw [← hkf]
        exact hkfe
      by_cases hnfe : nameFilter (kindFilter rs k1) n1 = []
      · have hnf2 : nameFilter (kindFilter rs k2) n2 = [] := by
          unfold nameFilter at hnfe ⊢
          rw [← hkf, ← hn]
          exact hnfe
        rw [get_name_missing hp1 hkfe hnfe, get_name_missing hp2 hkfe2 hnf2]
        rfl
      · have hnfe2 : nameFilter (kindFilter rs k2) n2 ≠ [] := by
          unfold nameFilter at hnfe ⊢
          rw [← hkf, ← hn]
          exact hnfe
        have hR : nameFilter (kindFilter rs k2) n2 = nameFilter (kindFilter rs k1) n1 := by
          unfold nameFilter
          rw [← hkf, ← hn]
        by_cases hps1 : ps1 = []
        · have hps2 : ps2 = [] := hpsiff.mp hps1
          rw [if_pos hps1] at hp1
          rw [if_pos hps2] at hp2
          rw [get_unversioned hp1 hkfe hnfe, get_unversioned hp2 hkfe2 hnfe2, hR]
          unfold single_or_ambiguous
          by_cases hamb : 1 < (pySortedSet ((nameFilter (kindFilter rs k1) n1).map
              ManifestRecord.api_version)).length
          · rw [if_pos hamb, if_pos hamb]
            rfl
          · rw [if_neg hamb, if_neg hamb]
        · have hps2 : ps2 ≠ [] := fun hx => hps1 (hpsiff.mpr hx)
          rw [if_neg hps1] at hp1
          rw [if_neg hps2] at hp2
          have hj : casefold (joinSlash ps1) = casefold (joinSlash ps2) := by
            rw [casefold_joinSlash, casefold_joinSlash, hps]
          rw [get_versioned hp1 hkfe hnfe, get_versioned hp2 hkfe2 hnfe2, hR]
          unfold match_api_version
          rw [hj]
          cases hf : (nameFilter (kindFilter rs k1) n1).find?
              (fun r2 => casefold r2.api_version == casefold (joinSlash ps2)) with
          | none => rfl
          | some r => rfl

/-- Witness for C6 at case-permuted selectors over a concrete index. -/
theorem c6_case_insensitive_get_witness :
    (effSegs "DEPLOYMENT/WEB").map casefold =
      (effSegs "deployment/web").map casefold ∧
    outcomeOf (ManifestIndex.get ⟨[⟨"apps/v1", "Deployment", "web", .str "m"⟩]⟩
        "DEPLOYMENT/WEB") =
      outcomeOf (ManifestIndex.get ⟨[⟨"apps/v1", "Deployment", "web", .str "m"⟩]⟩
        "deployment/web") :=
  ⟨by decide, c6_case_insensitive_get _ "DEPLOYMENT/WEB" "deployment/web" (by decide)⟩

/-- A non-empty name-filtered set forces a non-empty kind-filtered set. -/
theorem kindFilter_ne_of_nameFilter_ne {rs : List ManifestRecord} {k n : String}
    (h : nameFilter (kindFilter rs k) n ≠ []) : kindFilter rs k ≠ [] := by
  intro hx
  apply h
  unfold nameFilter
  rw [hx]
  rfl

/-- Claim C7: each not-found stage of get fails listing the alternatives at
that stage: all distinct kinds present (case-preserved, deduplicated on the
case-folded key, sorted case-insensitively, with the message showing
"(none)" on an empty index), the distinct names available for the kind, and
the apiVersions available for the kind/name pair. -/
theorem c7_not_found_alternatives (rs : List ManifestRecord) (sel : String)
    (av? : Option String) (k n : String)
    (hp : parse_selector sel = .ok (av?, k, n)) :
    (kindFilter rs k = [] →
      ManifestIndex.get ⟨rs⟩ sel = .error (.kindNotFound k (available_kinds rs)) ∧
      (∀ x ∈ available_kinds rs, ∃ r ∈ rs, r.kind = x) ∧
      (∀ r ∈ rs, ∃ x ∈ available_kinds rs, casefold x = casefold r.kind) ∧
      (available_kinds rs).Pairwise (fun a b => casefold a ≠ casefold b) ∧
      sortedCI (available_kinds rs) ∧
      (rs = [] → available_kinds rs = [] ∧
        renderGetErr (.kindNotFound k (available_kinds rs)) =
          "Kind " ++ pyRepr k ++ " not found. Available kinds: " ++ "(none)")) ∧
    (kindFilter rs k ≠ [] → nameFilter (kindFilter rs k) n = [] →
      ManifestIndex.get ⟨rs⟩ sel =
        .error (.nameNotFound k n (available_names_for_kind (kindFilter rs k))) ∧
      (∀ x ∈ available_names_for_kind (kindFilter rs k),
        ∃ r ∈ kindFilter rs k, r.name = x) ∧
      (∀ r ∈ kindFilter rs k, ∃ x ∈ available_names_for_kind (kindFilter rs k),
        casefold x = casefold r.name) ∧
      (available_names_for_kind (kindFilter rs k)).Pairwise
        (fun a b => casefold a ≠ casefold b) ∧
      sortedCI (available_names_for_kind (kindFilter rs k))) ∧
    (∀ a, av? = some a → kindFilter rs k ≠ [] →
      nameFilter (kindFilter rs k) n ≠ [] →
      (nameFilter (kindFilter rs k) n).find?
          (fun r2 => casefold r2.api_version == casefold a) = none →
      ManifestIndex.get ⟨rs⟩ sel =
        .error (.apiVersionNotFound k n a (pySortedSet
          ((nameFilter (kindFilter rs k) n).map ManifestRecord.api_version))) ∧
      (∀ x ∈ pySortedSet ((nameFilter (kindFilter rs k) n).map ManifestRecord.api_version),
        ∃ r ∈ nameFilter (kindFilter rs k) n, r.api_version = x) ∧
      (∀ r ∈ nameFilter (kindFilter rs k) n, r.api_version ∈
        pySortedSet ((nameFilter (kindFilter rs k) n).map ManifestRecord.api_version)) ∧
      (pySortedSet ((nameFilter (kindFilter rs k) n).map ManifestRecord.api_version)).Nodup ∧
      sortedCI (pySortedSet ((nameFilter (kindFilter rs k) n).map ManifestRecord.api_version))) := by
  refine ⟨?_, ?_, ?_⟩
  · intro hkfe
    refine ⟨get_kind_missing hp hkfe, ?_, ?_, available_kinds_pairwise rs,
      available_kinds_sorted rs, ?_⟩
    · intro x hx
      exact mem_available_kinds hx
    · intro r hr
      exact available_kinds_complete hr
    · intro hrs
      subst hrs
      exact ⟨rfl, rfl⟩
  · intro hkne hnfe
    refine ⟨get_name_missing hp hkne hnfe, ?_, ?_,
      available_names_pairwise (kindFilter rs k),
      available_names_sorted (kindFilter rs k)⟩
    · intro x hx
      exact mem_available_names hx
    · intro r hr
      exact available_names_complete hr
  · intro a hav hkne hnne hfnone
    subst hav
    refine ⟨?_, ?_, ?_, nodup_pySortedSet _, sortedCI_pySortedSet _⟩
    · rw [get_versioned hp hkne hnne]
      exact match_api_version_missing hfnone
    · intro x hx
      rcases List.mem_map.mp (mem_pySortedSet.mp hx) with ⟨r, hr, hrx⟩
      exact ⟨r, hr, hrx⟩
    · intro r hr
      exact mem_pySortedSet.mpr (List.mem_map_of_mem ManifestRecord.api_version hr)

/-- Witness for C7: the kind stage on an empty index and the message
fallback. -/
theorem c7_not_found_alternatives_witness :
    ManifestIndex.get ⟨[]⟩ "Service/x" =
      .error (.kindNotFound "Service" (available_kinds [])) ∧
    renderGetErr (.kindNotFound "Service" (available_kinds [])) =
      "Kind " ++ pyRepr "Service" ++ " not found. Available kinds: " ++ "(none)" := by
  have h := (c7_not_found_alternatives [] "Service/x" none "Service" "x" rfl).1 rfl
  exact ⟨h.1, (h.2.2.2.2.2 rfl).2⟩

/-- Claim C1 counterexample: two records whose apiVersions differ only in
case give exactly one distinct apiVersion under case-insensitive
deduplication, both filters succeed, yet the unversioned get raises
AmbiguousManifestError listing both raw apiVersions instead of returning a
document. -/
theorem c1_counterexample :
    let rs : List ManifestRecord :=
      [⟨"apps/v1", "Deployment", "web", .str "m1"⟩,
        ⟨"APPS/V1", "Deployment", "web", .str "m2"⟩]
    (firstByKey casefold ((nameFilter (kindFilter rs "Deployment") "web").map
        ManifestRecord.api_version)).length = 1 ∧
    (kindFilter rs "Deployment").length = 2 ∧
    (nameFilter (kindFilter rs "Deployment") "web").length = 2 ∧
    ManifestIndex.get ⟨rs⟩ "Deployment/web" =
      .error (.ambiguousManifest "Deployment" "web" ["apps/v1", "APPS/V1"]) :=
  ⟨rfl, rfl, rfl, rfl⟩

/-- Claim C1 amended: for an unversioned selector passing both filters, get
returns the first name-filtered record's document when those records carry
exactly one distinct raw apiVersion string, fails with
AmbiguousManifestError listing the exact-deduplicated case-insensitively
sorted candidates when they carry more than one, and for each candidate
that is slash-normalised the fully-qualified selector succeeds and returns
the first name-filtered record whose apiVersion matches the candidate
case-insensitively. -/
theorem c1_amended_resolution (rs : List ManifestRecord) (k n : String)
    (hk0 : k ≠ "") (hk1 : '/' ∉ k.data) (hn0 : n ≠ "") (hn1 : '/' ∉ n.data)
    (hne : nameFilter (kindFilter rs k) n ≠ []) :
    ((pySortedSet ((nameFilter (kindFilter rs k) n).map
        ManifestRecord.api_version)).length ≤ 1 →
      ∃ r rest, nameFilter (kindFilter rs k) n = r :: rest ∧
        ManifestIndex.get ⟨rs⟩ (k ++ "/" ++ n) = .ok r.manifest) ∧
    (1 < (pySortedSet ((nameFilter (kindFilter rs k) n).map
        ManifestRecord.api_version)).length →
      ManifestIndex.get ⟨rs⟩ (k ++ "/" ++ n) =
        .error (.ambiguousManifest k n (pySortedSet
          ((nameFilter (kindFilter rs k) n).map ManifestRecord.api_version)))) ∧
    (∀ a ∈ pySortedSet ((nameFilter (kindFilter rs k) n).map
        ManifestRecord.api_version),
      effSegs a ≠ [] → joinSlash (effSegs a) = a →
      ∃ r, (nameFilter (kindFilter rs k) n).find?
          (fun r2 => casefold r2.api_version == casefold a) = some r ∧
        ManifestIndex.get ⟨rs⟩ (a ++ "/" ++ k ++ "/" ++ n) = .ok r.manifest) := by
  have hkne : kindFilter rs k ≠ [] := kindFilter_ne_of_nameFilter_ne hne
  have hp2 := parse_selector_two hk0 hk1 hn0 hn1
  refine ⟨?_, ?_, ?_⟩
  · intro hlen
    cases hN : nameFilter (kindFilter rs k) n with
    | nil => exact absurd hN hne
    | cons r rest =>
      refine ⟨r, rest, rfl, ?_⟩
      rw [get_unversioned hp2 hkne hne]
      exact single_or_ambiguous_single hN hlen
  · intro hlen
    rw [get_unversioned hp2 hkne hne]
    exact single_or_ambiguous_multi hlen
  · intro a ha ha0 ha1
    rcases List.mem_map.mp (mem_pySortedSet.mp ha) with ⟨r0, hr0, hr0a⟩
    have hfind : ((nameFilter (kindFilter rs k) n).find?
        (fun r2 => casefold r2.api_version == casefold a)).isSome := by
      rw [List.find?_isSome]
      exact ⟨r0, hr0, by simp [hr0a]⟩
    rcases Option.isSome_iff_exists.mp hfind with ⟨r, hr⟩
    refine ⟨r, hr, ?_⟩
    have hp3 := parse_selector_three ha0 ha1 hk0 hk1 hn0 hn1
    rw [get_versioned hp3 hkne hne]
    exact match_api_version_found hr

/-- Witness for C1 amended: two genuinely distinct apiVersions are
ambiguous unversioned, and the fully-qualified selector resolves. -/
theorem c1_amended_resolution_witness :
    ManifestIndex.get ⟨[⟨"extensions/v1beta1", "Deployment", "rel", .str "m1"⟩,
        ⟨"apps/v1", "Deployment", "rel", .str "m2"⟩]⟩ ("Deployment" ++ "/" ++ "rel") =
      .error (.ambiguousManifest "Deployment" "rel" (pySortedSet
        ((nameFilter (kindFilter [⟨"extensions/v1beta1", "Deployment", "rel", .str "m1"⟩,
          ⟨"apps/v1", "Deployment", "rel", .str "m2"⟩] "Deployment") "rel").map
          ManifestRecord.api_version))) ∧
    (∃ r, (nameFilter (kindFilter [⟨"extensions/v1beta1", "Deployment", "rel", .str "m1"⟩,
          ⟨"apps/v1", "Deployment", "rel", .str "m2"⟩] "Deployment") "rel").find?
        (fun r2 => casefold r2.api_version == casefold "apps/v1") = some r ∧
      ManifestIndex.get ⟨[⟨"extensions/v1beta1", "Deployment", "rel", .str "m1"⟩,
          ⟨"apps/v1", "Deployment", "rel", .str "m2"⟩]⟩
        ("apps/v1" ++ "/" ++ "Deployment" ++ "/" ++ "rel") = .ok r.manifest) := by
  have hne : nameFilter (kindFilter [⟨"extensions/v1beta1", "Deployment", "rel", .str "m1"⟩,
      ⟨"apps/v1", "Deployment", "rel", .str "m2"⟩] "Deployment") "rel" ≠ [] := by
    intro hx
    have hl : (nameFilter (kindFilter
      [⟨"extensions/v1beta1", "Deployment", "rel", .str "m1"⟩,
        ⟨"apps/v1", "Deployment", "rel", .str "m2"⟩] "Deployment") "rel").length = 2 := rfl
    rw [hx] at hl
    cases hl
  have h := c1_amended_resolution
    [⟨"extensions/v1beta1", "Deployment", "rel", .str "m1"⟩,
      ⟨"apps/v1", "Deployment", "rel", .str "m2"⟩] "Deployment" "rel"
    (by decide) (by decide) (by decide) (by decide) hne
  exact ⟨h.2.1 (by decide), h.2.2 "apps/v1" (by decide) (by decide) (by decide)⟩

/-- Claim C9 counterexample: with two stored records both satisfying the
same kind, name and apiVersion filters (apiVersions differing only in
case), the versioned selector returns the first record's document but the
unversioned selector raises AmbiguousManifestError instead of returning
it. -/
theorem c9_counterexample :
    let rs : List ManifestRecord :=
      [⟨"v1", "Service", "db", .str "d1"⟩, ⟨"V1", "Service", "db", .str "d2"⟩]
    ((nameFilter (kindFilter rs "Service") "db").filter
        (fun r2 => casefold r2.api_version == casefold "v1")).length = 2 ∧
    ManifestIndex.get ⟨rs⟩ "v1/Service/db" = .ok (.str "d1") ∧
    ManifestIndex.get ⟨rs⟩ "Service/db" =
      .error (.ambiguousManifest "Service" "db" ["v1", "V1"]) :=
  ⟨rfl, rfl, rfl⟩

/-- Claim C9 amended: when several stored records satisfy the kind, name
and apiVersion filters, the versioned selector returns the first matching
record's document in stored order; the unversioned selector does so only
when the name-filtered records carry a single distinct raw apiVersion
string, and otherwise fails as ambiguous. -/
theorem c9_amended_tie_break (rs : List ManifestRecord) (a k n : String)
    (hk0 : k ≠ "") (hk1 : '/' ∉ k.data) (hn0 : n ≠ "") (hn1 : '/' ∉ n.data) :
    (∀ r, effSegs a ≠ [] → joinSlash (effSegs a) = a →
      (nameFilter (kindFilter rs k) n).find?
          (fun r2 => casefold r2.api_version == casefold a) = some r →
      ManifestIndex.get ⟨rs⟩ (a ++ "/" ++ k ++ "/" ++ n) = .ok r.manifest) ∧
    (∀ r rest, nameFilter (kindFilter rs k) n = r :: rest →
      (pySortedSet ((nameFilter (kindFilter rs k) n).map
        ManifestRecord.api_version)).length ≤ 1 →
      ManifestIndex.get ⟨rs⟩ (k ++ "/" ++ n) = .ok r.manifest) := by
  constructor
  · intro r ha0 ha1 hfind
    have hne : nameFilter (kindFilter rs k) n ≠ [] := by
      intro hx
      rw [hx] at hfind
      exact Option.noConfusion hfind
    have hkne : kindFilter rs k ≠ [] := kindFilter_ne_of_nameFilter_ne hne
    have hp3 := parse_selector_three ha0 ha1 hk0 hk1 hn0 hn1
    rw [get_versioned hp3 hkne hne]
    exact match_api_version_found hfind
  · intro r rest hN hlen
    have hne : nameFilter (kindFilter rs k) n ≠ [] := by
      rw [hN]
      simp
    have hkne : kindFilter rs k ≠ [] := kindFilter_ne_of_nameFilter_ne hne
    have hp2 := parse_selector_two hk0 hk1 hn0 hn1
    rw [get_unversioned hp2 hkne hne]
    exact single_or_ambiguous_single hN hlen

/-- Witness for C9 amended: two identical duplicates in the index; both
selector forms return the first record's document. -/
theorem c9_amended_tie_break_witness :
    ManifestIndex.get ⟨[⟨"v1", "ConfigMap", "cfg", .str "x1"⟩,
        ⟨"v1", "ConfigMap", "cfg", .str "x2"⟩]⟩
      ("v1" ++ "/" ++ "ConfigMap" ++ "/" ++ "cfg") = .ok (.str "x1") ∧
    ManifestIndex.get ⟨[⟨"v1", "ConfigMap", "cfg", .str "x1"⟩,
        ⟨"v1", "ConfigMap", "cfg", .str "x2"⟩]⟩
      ("ConfigMap" ++ "/" ++ "cfg") = .ok (.str "x1") := by
  have h := c9_amended_tie_break
    [⟨"v1", "ConfigMap", "cfg", .str "x1"⟩, ⟨"v1", "ConfigMap", "cfg", .str "x2"⟩]
    "v1" "ConfigMap" "cfg" (by decide) (by decide) (by decide) (by decide)
  constructor
  · exact h.1 ⟨"v1", "ConfigMap", "cfg", .str "x1"⟩ (by decide) (by decide) rfl
  · exact h.2 ⟨"v1", "ConfigMap", "cfg", .str "x1"⟩
      [⟨"v1", "ConfigMap", "cfg", .str "x2"⟩] rfl (by decide)
